import Mathlib

/-!
Shallow embedding of the PayrollDesk payroll scheduling and cash-advance
allocation engine (src/app/core/payroll.py, src/app/crud.py,
src/app/services.py), together with theorems settling the frozen claims
about its natural-language specification.

Conventions of the embedding:
* Python `Decimal` money values are represented as exact rationals (`ℚ`);
  `Decimal.quantize(Decimal("0.01"), ROUND_HALF_UP)` is `quantize2`.
* `datetime.date` is `PDate` with lexicographic comparison.
* Fallible code (`raise ValueError`) is `Option`/`Except`.
* Mutable loops are explicit recursion / state threading.
-/

set_option allowUnsafeReducibility true
attribute [semireducible] Rat.add Rat.sub Rat.mul Rat.inv Rat.ofScientific

deriving instance DecidableEq for Except

/-- `ROUND_HALF_UP` of a rational to an integer: round to the nearest
integer, ties away from zero (Python `decimal` semantics).  For `0 ≤ q`
this is `⌊q + 1/2⌋`, written on the numerator and denominator so that
the kernel can evaluate it: `⌊q + 1/2⌋ = (2*num + den).fdiv (2*den)`. -/
def roundHalfUpInt (q : ℚ) : ℤ :=
  if 0 ≤ q then Int.fdiv (2 * q.num + (q.den : ℤ)) (2 * (q.den : ℤ))
  else -Int.fdiv (2 * (-q).num + ((-q).den : ℤ)) (2 * ((-q).den : ℤ))

/-- `value.quantize(Decimal("0.01"), rounding=ROUND_HALF_UP)` from
src/app/core/payroll.py (`MONEY_QUANT = Decimal("0.01")`). -/
def quantize2 (q : ℚ) : ℚ :=
  (roundHalfUpInt (q * 100) : ℚ) / 100

/-- A calendar date (`datetime.date`). -/
structure PDate where
  year : ℕ
  month : ℕ
  day : ℕ
deriving DecidableEq, Repr

/-- Lexicographic date comparison, as Python compares `date` values. -/
def PDate.le (a b : PDate) : Bool :=
  if a.year = b.year then
    if a.month = b.month then decide (a.day ≤ b.day)
    else decide (a.month < b.month)
  else decide (a.year < b.year)

/-- Strict lexicographic date comparison. -/
def PDate.lt (a b : PDate) : Bool :=
  if a.year = b.year then
    if a.month = b.month then decide (a.day < b.day)
    else decide (a.month < b.month)
  else decide (a.year < b.year)

/-- Gregorian leap-year test (`calendar.isleap`). -/
def isLeapYear (y : ℕ) : Bool :=
  y % 4 = 0 && (y % 100 ≠ 0 || y % 400 = 0)

/-- Number of days in a month (`calendar.monthrange(year, month)[1]`). -/
def monthLength (y m : ℕ) : ℕ :=
  if m = 2 then (if isLeapYear y then 29 else 28)
  else if m = 4 ∨ m = 6 ∨ m = 9 ∨ m = 11 then 30
  else 31

/-- `get_pay_dates` (src/app/core/payroll.py lines 224-233): the four
fixed pay dates of a month, the 7th, 14th, 21st and the last day. -/
def get_pay_dates (year month : ℕ) : List PDate :=
  [⟨year, month, 7⟩, ⟨year, month, 14⟩, ⟨year, month, 21⟩,
   ⟨year, month, monthLength year month⟩]

/-- `payout_plan` (src/app/core/payroll.py lines 236-239):
`FREQUENCY_PLANS.get(frequency, [])`. -/
def payout_plan (frequency : String) : List ℕ :=
  if frequency = "weekly" then [0, 1, 2, 3]
  else if frequency = "biweekly" then [1, 3]
  else if frequency = "monthly" then [3]
  else []

/-- `allocate_amounts` (src/app/core/payroll.py lines 242-259).
`none` models the `ValueError` raised when the plan is empty.  The
Python `remaining` is `monthly_amount - sum(amounts)` when the interim
list is non-empty and `monthly_amount` otherwise; since the sum of the
empty list is `0`, both branches are `monthly_amount - amounts.sum`. -/
def allocate_amounts (monthly_amount : ℚ) (frequency : String) :
    Option (List ℚ × Bool) :=
  let plan := payout_plan frequency
  if plan = [] then none
  else
    let count := plan.length
    let base_share := quantize2 (monthly_amount / count)
    let amounts := List.replicate (count - 1) base_share
    let remaining := monthly_amount - amounts.sum
    let final_share := quantize2 remaining
    some (amounts ++ [final_share], final_share ≠ base_share)

/-- `ValidationMessage` (src/app/core/payroll.py lines 35-40). -/
structure ValidationMessage where
  level : String
  text : String
deriving DecidableEq, Repr

/-- `ModelRecord` (src/app/core/payroll.py lines 43-68): the normalized
representation of a payee row. -/
structure ModelRecord where
  row_number : ℕ
  status : String
  code : String
  real_name : String
  working_name : String
  start_date : Option PDate
  payment_method : String
  payment_frequency : String
  amount_monthly : Option ℚ
  compensation_adjustments : List (PDate × ℚ)
  validation_messages : List ValidationMessage
deriving Repr

/-- `ModelRecord.has_errors` (src/app/core/payroll.py lines 59-63). -/
def ModelRecord.has_errors (record : ModelRecord) : Bool :=
  record.validation_messages.any (fun message => message.level = "error")

/-- One step of a stable sort by effective date: keep earlier-keyed entries
in front, insert before the first entry whose key is not smaller. -/
def insertAdjustment (x : PDate × ℚ) :
    List (PDate × ℚ) → List (PDate × ℚ)
  | [] => [x]
  | y :: ys =>
    if PDate.lt y.1 x.1 then y :: insertAdjustment x ys else x :: y :: ys

/-- `sorted(record.compensation_adjustments, key=lambda item: item[0])`
(src/app/core/payroll.py line 276): a stable sort by effective date,
realized as insertion sort. -/
def sortAdjustments : List (PDate × ℚ) → List (PDate × ℚ)
  | [] => []
  | x :: xs => insertAdjustment x (sortAdjustments xs)

/-- The `for effective, amount in adjustments` loop of
`resolve_monthly_amount` (src/app/core/payroll.py lines 277-282): walk the
sorted adjustments, remembering the amount of each entry effective on or
before the pay date, and stop at the first later one. -/
def scanAdjust (payDate : PDate) (active : Option ℚ) :
    List (PDate × ℚ) → Option ℚ
  | [] => active
  | (effective, amount) :: rest =>
    if PDate.le effective payDate then scanAdjust payDate (some amount) rest
    else active

/-- `resolve_monthly_amount` (src/app/core/payroll.py lines 272-285). -/
def resolve_monthly_amount (record : ModelRecord) (payDate : PDate) :
    Option ℚ :=
  if record.compensation_adjustments = [] then record.amount_monthly
  else
    match scanAdjust payDate none
        (sortAdjustments record.compensation_adjustments) with
    | some amount => some amount
    | none => record.amount_monthly

/-- Python `str.lower()`, written as a structural map over the characters
so that the kernel can evaluate it (`String.toLower` itself is defined
through `String.mapAux`, which does not reduce). -/
def lowerString (s : String) : String :=
  String.mk (s.data.map Char.toLower)

/-- `is_eligible_for_date` (src/app/core/payroll.py lines 262-269). -/
def is_eligible_for_date (record : ModelRecord) (payDate : PDate) : Bool :=
  if lowerString record.status ≠ "active" then false
  else
    match record.start_date with
    | none => false
    | some startDate => PDate.le startDate payDate

/-- One generated row of the pay schedule (the fields of the
`rows.append` dict in src/app/core/payroll.py lines 330-341 that the
claims are about). -/
structure ScheduleRow where
  payDate : PDate
  code : String
  amount : ℚ
  notes : String
deriving DecidableEq, Repr

/-- The `for position, plan_index in enumerate(plan)` loop of
`build_pay_schedule` (src/app/core/payroll.py lines 313-345) for one
record, threading the `skipped_due_to_start` flag.  Note the emitted
amount is `base_amount = (monthly_amount / plan_length).quantize(...)`
for every slot: `build_pay_schedule` does not call `allocate_amounts`,
so no slot absorbs a rounding remainder. -/
def buildRowsAux (record : ModelRecord) (payDates : List PDate)
    (planLength : ℕ) : List ℕ → Bool → List ScheduleRow
  | [], _ => []
  | planIndex :: rest, skipped =>
    let payDate := payDates.getD planIndex ⟨0, 0, 0⟩
    match resolve_monthly_amount record payDate with
    | none => buildRowsAux record payDates planLength rest skipped
    | some monthlyAmount =>
      if monthlyAmount ≤ 0 then
        buildRowsAux record payDates planLength rest skipped
      else
        let baseAmount := quantize2 (monthlyAmount / (planLength : ℚ))
        if is_eligible_for_date record payDate then
          let notes := if skipped then "Start date blocks earlier payouts"
            else ""
          ⟨payDate, record.code, baseAmount, notes⟩ ::
            buildRowsAux record payDates planLength rest false
        else
          let skippedNext :=
            match record.start_date with
            | some startDate =>
              if PDate.lt payDate startDate then true else skipped
            | none => skipped
          buildRowsAux record payDates planLength rest skippedNext

/-- The per-record body of `build_pay_schedule`
(src/app/core/payroll.py lines 302-345): records with errors, a missing
monthly amount or an empty plan contribute nothing; otherwise the plan
loop emits one row per eligible pay date. -/
def scheduleRowsForRecord (record : ModelRecord) (year month : ℕ) :
    List ScheduleRow :=
  if record.has_errors ∨ record.amount_monthly = none then []
  else
    let plan := payout_plan record.payment_frequency
    if plan = [] then []
    else buildRowsAux record (get_pay_dates year month) plan.length plan false

/-- `ModelAdvance` (src/app/models.py): the fields the allocation and
repayment code reads.  `fixed_amount` and `percent_rate` stand for
`Decimal(adv.fixed_amount or 0)` and `Decimal(adv.percent_rate or 0)`
(the null-coalesced values the loop computes); `strategy` is nullable in
the database, read as `adv.strategy or "fixed"`. -/
structure ModelAdvance where
  id : ℕ
  strategy : Option String
  fixed_amount : ℚ
  percent_rate : ℚ
  amount_remaining : ℚ
  status : String
deriving DecidableEq, Repr

/-- A `Payout` row as the allocation engine sees it: its primary key and
its (mutable) `amount`. -/
structure PayoutRow where
  id : ℕ
  amount : ℚ
deriving DecidableEq, Repr

/-- `PayoutAdvanceAllocation` (src/app/models.py): a planned deduction.
`schedule_run_id` and `model_id` are constant over one engine call and
omitted. -/
structure PayoutAdvanceAllocation where
  payout_id : ℕ
  advance_id : ℕ
  planned_amount : ℚ
deriving DecidableEq, Repr

/-- Total planned amount the allocation rows assign to one advance. -/
def plannedTotalForAdvance (advanceId : ℕ)
    (allocs : List PayoutAdvanceAllocation) : ℚ :=
  ((allocs.filter (fun al => al.advance_id = advanceId)).map
    (fun al => al.planned_amount)).sum

/-- Total planned amount the allocation rows deduct from one payout. -/
def plannedTotalForPayout (payoutId : ℕ)
    (allocs : List PayoutAdvanceAllocation) : ℚ :=
  ((allocs.filter (fun al => al.payout_id = payoutId)).map
    (fun al => al.planned_amount)).sum

/-- The mutable state of the inner `for adv in advances` loop of
`_apply_advance_allocations_for_run` (src/app/crud.py lines 1210-1243):
the payout's current amount, `total_deducted`, the `temp_remaining`
working balances, and the allocation rows created so far. -/
structure WalkState where
  payoutAmount : ℚ
  totalDeducted : ℚ
  rem : ℕ → ℚ
  allocs : List PayoutAdvanceAllocation

/-- The `for adv in advances` walk over one payout
(src/app/crud.py lines 1210-1243).  `available` is the payout's amount
captured before the walk; the percent candidate reads the payout's
current (already reduced) amount; the final `break` fires once the
available room is exhausted. -/
def walkAdvances (payoutId : ℕ) (available : ℚ) :
    List ModelAdvance → WalkState → WalkState
  | [], s => s
  | adv :: rest, s =>
    if s.rem adv.id ≤ 0 then walkAdvances payoutId available rest s
    else
      let candidate :=
        if adv.strategy.getD "fixed" = "fixed" then adv.fixed_amount
        else s.payoutAmount * (adv.percent_rate / 100)
      let remaining_room := max (available - s.totalDeducted) 0
      let planned := min (min candidate (s.rem adv.id)) remaining_room
      if planned ≤ 0 then walkAdvances payoutId available rest s
      else
        let s2 : WalkState :=
          { payoutAmount := s.payoutAmount - planned
            totalDeducted := s.totalDeducted + planned
            rem := fun j => if j = adv.id then s.rem adv.id - planned
              else s.rem j
            allocs := s.allocs ++ [⟨payoutId, adv.id, planned⟩] }
        if available - s2.totalDeducted ≤ 0 then s2
        else walkAdvances payoutId available rest s2

/-- Result of planning allocations for one payee: the payouts with their
net amounts, the final working balances, and the allocation rows. -/
structure PlanResult where
  payouts : List PayoutRow
  rem : ℕ → ℚ
  allocs : List PayoutAdvanceAllocation

/-- The `for payout in rows` loop of `_apply_advance_allocations_for_run`
(src/app/crud.py lines 1205-1243), threading the `temp_remaining` map
through the payouts in order. -/
def applyPayouts (advances : List ModelAdvance) :
    List PayoutRow → (ℕ → ℚ) → PlanResult
  | [], rem => ⟨[], rem, []⟩
  | payout :: rest, rem =>
    let available := payout.amount
    if available ≤ 0 then
      let r := applyPayouts advances rest rem
      ⟨payout :: r.payouts, r.rem, r.allocs⟩
    else
      let s := walkAdvances payout.id available advances
        ⟨payout.amount, 0, rem, []⟩
      let r := applyPayouts advances rest s.rem
      ⟨⟨payout.id, s.payoutAmount⟩ :: r.payouts, r.rem, s.allocs ++ r.allocs⟩

/-- `temp_remaining = {adv.id: Decimal(adv.amount_remaining or 0) for adv
in advances}` (src/app/crud.py line 1203), as a total map defaulting to
0 outside the advance ids. -/
def initialRemaining (advances : List ModelAdvance) : ℕ → ℚ :=
  advances.foldl
    (fun f adv => fun j => if j = adv.id then adv.amount_remaining else f j)
    (fun _ => 0)

/-- The per-payee body of `_apply_advance_allocations_for_run`
(src/app/crud.py lines 1189-1246): `advances` is the payee's
`status = "active"` advances ordered by `created_at` ascending (the FIFO
order of the query), `payouts` the payee's payouts sorted by
`(pay_date, id)`.  `if not advances: continue` is the first branch. -/
def apply_advance_allocations (advances : List ModelAdvance)
    (payouts : List PayoutRow) : PlanResult :=
  if advances = [] then ⟨payouts, fun _ => 0, []⟩
  else applyPayouts advances payouts (initialRemaining advances)

/-- `AdvanceRepayment` (src/app/models.py): a realized deduction. -/
structure AdvanceRepayment where
  advance_id : ℕ
  payout_id : Option ℕ
  amount : ℚ
  source : String
deriving DecidableEq, Repr

/-- A `Payout` row as the repayment code sees it: primary key, status
and notes. -/
structure DbPayout where
  id : ℕ
  status : String
  notes : Option String
deriving DecidableEq, Repr

/-- The database state the advance/repayment functions of
src/app/crud.py read and write. -/
structure LedgerState where
  payouts : List DbPayout
  advances : List ModelAdvance
  allocations : List PayoutAdvanceAllocation
  repayments : List AdvanceRepayment
deriving DecidableEq, Repr

/-- `close_advance_if_settled` (src/app/crud.py lines 1142-1146). -/
def close_advance_if_settled (adv : ModelAdvance) : ModelAdvance :=
  if adv.amount_remaining ≤ 0 ∧ adv.status ≠ "closed" then
    { adv with amount_remaining := 0, status := "closed" }
  else adv

/-- `record_advance_repayment` (src/app/crud.py lines 1149-1172), acting
on the advance object the caller passed: validates the amount, clamps
the applied amount to the remaining balance, builds the repayment row,
decrements the remaining balance and closes the advance if settled.
`Except.error` models the raised `ValueError`. -/
def record_advance_repayment (adv : ModelAdvance) (amount : ℚ)
    (source : String) (payoutId : Option ℕ) :
    Except String (ModelAdvance × AdvanceRepayment) :=
  if amount ≤ 0 then Except.error "Repayment amount must be greater than 0"
  else
    let applied := min amount adv.amount_remaining
    let repayment : AdvanceRepayment :=
      ⟨adv.id, payoutId, applied, if source = "auto" then "auto" else "manual"⟩
    let adv2 := close_advance_if_settled
      { adv with amount_remaining := adv.amount_remaining - applied }
    Except.ok (adv2, repayment)

/-- Replace the advance with the given id in the advances list (the
effect of `db.add(advance)` on the mutated object). -/
def updateAdvance (advances : List ModelAdvance) (adv : ModelAdvance) :
    List ModelAdvance :=
  advances.map (fun a => if a.id = adv.id then adv else a)

/-- `record_advance_repayment` invoked through the manual-repayment
route (src/app/routers/models.py lines 937-952): the router fetches the
advance (404 when absent) and records a repayment with
`source="manual"` and no payout. -/
def record_manual_repayment (s : LedgerState) (advanceId : ℕ)
    (amount : ℚ) : Except String LedgerState :=
  match s.advances.find? (fun a => a.id = advanceId) with
  | none => Except.error "Advance not found"
  | some adv =>
    match record_advance_repayment adv amount "manual" none with
    | Except.error e => Except.error e
    | Except.ok (adv2, repayment) =>
      Except.ok { s with
        advances := updateAdvance s.advances adv2
        repayments := s.repayments ++ [repayment] }

/-- The `for alloc in allocations` loop of
`_realize_allocations_for_paid_payout` (src/app/crud.py lines
1277-1283): look up the advance (skipping the allocation when it is
gone), record an auto repayment of the planned amount, and delete the
realized allocation row. -/
def realizeLoop (payoutId : ℕ) :
    List PayoutAdvanceAllocation → LedgerState → Except String LedgerState
  | [], s => Except.ok s
  | alloc :: rest, s =>
    match s.advances.find? (fun a => a.id = alloc.advance_id) with
    | none => realizeLoop payoutId rest s
    | some adv =>
      match record_advance_repayment adv alloc.planned_amount "auto"
          (some payoutId) with
      | Except.error e => Except.error e
      | Except.ok (adv2, repayment) =>
        realizeLoop payoutId rest
          { s with
            advances := updateAdvance s.advances adv2
            allocations := s.allocations.erase alloc
            repayments := s.repayments ++ [repayment] }

/-- `_realize_allocations_for_paid_payout` (src/app/crud.py lines
1265-1285): nothing to do without allocations; skip when a repayment
already references this payout (idempotency guard); otherwise realize
each allocation. -/
def realize_allocations_for_paid_payout (s : LedgerState)
    (payoutId : ℕ) : Except String LedgerState :=
  let allocations := s.allocations.filter
    (fun alloc => alloc.payout_id = payoutId)
  if allocations = [] then Except.ok s
  else if s.repayments.any
      (fun repayment => repayment.payout_id = some payoutId) then
    Except.ok s
  else realizeLoop payoutId allocations s

/-- Python `note or None`: the empty string is falsy and becomes
`None`. -/
def noteOrNone (note : Option String) : Option String :=
  match note with
  | some s => if s = "" then none else some s
  | none => none

/-- `update_payout` (src/app/crud.py lines 369-378): set the payout's
notes and status, then realize planned allocations when the new status
is `paid`.  `markPayoutPaid` is this with `status = "paid"`. -/
def update_payout (s : LedgerState) (payoutId : ℕ) (note : Option String)
    (status : String) : Except String LedgerState :=
  let s1 : LedgerState := { s with
    payouts := s.payouts.map (fun p =>
      if p.id = payoutId then
        { p with notes := noteOrNone note, status := status }
      else p) }
  if status = "paid" then realize_allocations_for_paid_payout s1 payoutId
  else Except.ok s1

/-- A stored `Payout` row as `PayrollService.run_payroll` snapshots and
`store_payouts` writes it (the `(code, pay_date)` natural key plus the
merged fields). -/
structure StoredPayout where
  code : String
  pay_date : PDate
  amount : ℚ
  status : String
  notes : Option String
deriving DecidableEq, Repr

/-- `ScheduleRun` with its payouts (src/app/models.py): the period key
and the owned payout rows. -/
structure ScheduleRun where
  target_year : ℕ
  target_month : ℕ
  payouts : List StoredPayout
deriving DecidableEq, Repr

/-- The schedule-run table. -/
structure AppState where
  runs : List ScheduleRun
deriving DecidableEq, Repr

/-- One emitted payout candidate (a record of `payout_records` in
`PayrollService.run_payroll`, src/app/services.py lines 103-113): its
notes are `None` only when the generated Notes value was null/NaN;
the usual generated value is a string, `""` when no note applies. -/
structure Candidate where
  code : String
  pay_date : PDate
  amount : ℚ
  notes : Option String
deriving DecidableEq, Repr

/-- `old_payout_data[(code, pay_date)]` (src/app/services.py lines
59-68): the snapshot dict built by iterating the run's payouts; a later
duplicate key overwrites an earlier one, hence the last match wins. -/
def snapshotLookup (payouts : List StoredPayout) (code : String)
    (payDate : PDate) : Option (String × Option String) :=
  (payouts.filter (fun p => p.code = code ∧ p.pay_date = payDate)).getLast?
    |>.map (fun p => (p.status, p.notes))

/-- The merge step of `store_payouts` (src/app/crud.py lines 215-237):
`status = old_payout_data.get(key, {}).get("status", "not_paid")` and
`notes = old_payout_data.get(key, {}).get("notes", payout.get("Notes"))`;
a snapshot hit carries both fields over verbatim, a miss defaults the
status to `not_paid` and the notes to the candidate's own Notes value. -/
def mergeCandidate (oldPayouts : List StoredPayout) (c : Candidate) :
    StoredPayout :=
  match snapshotLookup oldPayouts c.code c.pay_date with
  | some (status, notes) => ⟨c.code, c.pay_date, c.amount, status, notes⟩
  | none => ⟨c.code, c.pay_date, c.amount, "not_paid", c.notes⟩

/-- Replace the first run with the new run's period key. -/
def replaceRun (newRun : ScheduleRun) :
    List ScheduleRun → List ScheduleRun
  | [] => []
  | r :: rs =>
    if r.target_year = newRun.target_year ∧
        r.target_month = newRun.target_month then newRun :: rs
    else r :: replaceRun newRun rs

/-- `PayrollService.run_payroll` (src/app/services.py lines 45-121),
restricted to the run/payout bookkeeping the claims are about: when a
run for the period exists, snapshot its payouts, clear them and store
the merged candidates into the same run; otherwise create one new run.
Candidate generation (`build_pay_schedule`) and the advance-allocation
pass over the stored amounts are modelled separately. -/
def run_payroll (s : AppState) (year month : ℕ)
    (candidates : List Candidate) : AppState :=
  match s.runs.find? (fun r =>
      r.target_year = year ∧ r.target_month = month) with
  | some run =>
    ⟨replaceRun
      ⟨year, month, candidates.map (mergeCandidate run.payouts)⟩ s.runs⟩
  | none =>
    ⟨s.runs ++ [⟨year, month, candidates.map (mergeCandidate [])⟩]⟩

/-- Number of schedule runs stored for a period. -/
def numRunsFor (s : AppState) (year month : ℕ) : ℕ :=
  (s.runs.filter (fun r =>
    r.target_year = year ∧ r.target_month = month)).length

theorem fdiv_two_mul_add_one (i : ℤ) : Int.fdiv (2 * i + 1) 2 = i := by
  rw [Int.fdiv_eq_ediv _ (by decide : (0 : ℤ) ≤ 2)]
  omega

theorem roundHalfUpInt_intCast (i : ℤ) : roundHalfUpInt (i : ℚ) = i := by
  unfold roundHalfUpInt
  rcases le_or_lt 0 (i : ℚ) with h | h
  · rw [if_pos h, Rat.num_intCast, Rat.den_intCast, Nat.cast_one, mul_one]
    exact fdiv_two_mul_add_one i
  · rw [if_neg (not_le.mpr h),
      show -(i : ℚ) = ((-i : ℤ) : ℚ) by push_cast; ring,
      Rat.num_intCast, Rat.den_intCast, Nat.cast_one, mul_one,
      fdiv_two_mul_add_one]
    ring

theorem quantize2_int_div (i : ℤ) : quantize2 ((i : ℚ) / 100) = (i : ℚ) / 100 := by
  unfold quantize2
  rw [div_mul_cancel₀ ((i : ℚ)) (by norm_num : (100 : ℚ) ≠ 0),
    roundHalfUpInt_intCast]

theorem payout_plan_ne_nil {frequency : String}
    (hf : frequency ∈ ["weekly", "biweekly", "monthly"]) :
    payout_plan frequency ≠ [] := by
  simp only [List.mem_cons, List.mem_singleton, List.not_mem_nil, or_false] at hf
  rcases hf with h | h | h <;> subst h <;> decide

theorem allocate_amounts_unfold (m : ℚ) (frequency : String)
    (h : payout_plan frequency ≠ []) :
    allocate_amounts m frequency =
      some (List.replicate ((payout_plan frequency).length - 1)
          (quantize2 (m / ((payout_plan frequency).length : ℚ))) ++
        [quantize2 (m - (List.replicate ((payout_plan frequency).length - 1)
          (quantize2 (m / ((payout_plan frequency).length : ℚ)))).sum)],
        decide (quantize2 (m - (List.replicate ((payout_plan frequency).length - 1)
            (quantize2 (m / ((payout_plan frequency).length : ℚ)))).sum) ≠
          quantize2 (m / ((payout_plan frequency).length : ℚ)))) := by
  unfold allocate_amounts
  rw [if_neg h]

/-- C1: for every positive monthly amount quantized to 2 decimal places
(written as `k / 100` cents) and every supported frequency,
`allocate_amounts` returns one share per plan slot; every slot but the
last is the even share quantized half-up to 2 decimals, the last slot is
the monthly amount minus the sum of the other shares, the shares sum
exactly to the monthly amount, and `wasRounded` is true iff the last
share differs from the even share. -/
theorem allocate_amounts_exact_split (k : ℤ) (hk : 0 < k)
    (frequency : String)
    (hf : frequency ∈ ["weekly", "biweekly", "monthly"]) :
    ∃ base : ℚ,
      base = quantize2 ((k : ℚ) / 100 / ((payout_plan frequency).length : ℚ)) ∧
      allocate_amounts ((k : ℚ) / 100) frequency =
        some (List.replicate ((payout_plan frequency).length - 1) base ++
            [(k : ℚ) / 100 -
              ((((payout_plan frequency).length - 1 : ℕ) : ℚ)) * base],
          decide ((k : ℚ) / 100 -
              ((((payout_plan frequency).length - 1 : ℕ) : ℚ)) * base ≠ base)) ∧
      (List.replicate ((payout_plan frequency).length - 1) base ++
          [(k : ℚ) / 100 -
            ((((payout_plan frequency).length - 1 : ℕ) : ℚ)) * base]).length
        = (payout_plan frequency).length ∧
      (List.replicate ((payout_plan frequency).length - 1) base ++
          [(k : ℚ) / 100 -
            ((((payout_plan frequency).length - 1 : ℕ) : ℚ)) * base]).sum
        = (k : ℚ) / 100 := by
  have hne := payout_plan_ne_nil hf
  have hlen : 1 ≤ (payout_plan frequency).length :=
    List.length_pos.mpr hne
  refine ⟨quantize2 ((k : ℚ) / 100 / ((payout_plan frequency).length : ℚ)),
    rfl, ?_, ?_, ?_⟩
  · rw [allocate_amounts_unfold _ _ hne]
    have hsum : (List.replicate ((payout_plan frequency).length - 1)
        (quantize2 ((k : ℚ) / 100 / ((payout_plan frequency).length : ℚ)))).sum
        = ((((payout_plan frequency).length - 1 : ℕ) : ℚ)) *
          quantize2 ((k : ℚ) / 100 / ((payout_plan frequency).length : ℚ)) := by
      rw [List.sum_replicate, nsmul_eq_mul]
    have hquant : quantize2 ((k : ℚ) / 100 -
        ((((payout_plan frequency).length - 1 : ℕ) : ℚ)) *
          quantize2 ((k : ℚ) / 100 / ((payout_plan frequency).length : ℚ)))
        = (k : ℚ) / 100 -
          ((((payout_plan frequency).length - 1 : ℕ) : ℚ)) *
            quantize2 ((k : ℚ) / 100 / ((payout_plan frequency).length : ℚ)) := by
      have hrem : (k : ℚ) / 100 -
          ((((payout_plan frequency).length - 1 : ℕ) : ℚ)) *
            quantize2 ((k : ℚ) / 100 / ((payout_plan frequency).length : ℚ))
          = (((k - ((payout_plan frequency).length - 1 : ℕ) *
              roundHalfUpInt ((k : ℚ) / 100 /
                ((payout_plan frequency).length : ℚ) * 100) : ℤ)) : ℚ) / 100 := by
        unfold quantize2
        push_cast
        ring
      rw [hrem, quantize2_int_div]
    rw [hsum, hquant]
  · simp only [List.length_append, List.length_replicate,
      List.length_singleton]
    omega
  · rw [List.sum_append, List.sum_replicate, nsmul_eq_mul,
      List.sum_singleton]
    ring

theorem allocate_amounts_exact_split_witness :
    (0 : ℤ) < 100010 ∧
    "weekly" ∈ ["weekly", "biweekly", "monthly"] ∧
    allocate_amounts (((100010 : ℤ) : ℚ) / 100) "weekly" =
      some ([25003 / 100, 25003 / 100, 25003 / 100, 25001 / 100], true) := by
  refine ⟨by decide, by decide, ?_⟩
  obtain ⟨base, hbase, heq, hlen, hsum⟩ :=
    allocate_amounts_exact_split 100010 (by decide) "weekly" (by decide)
  rw [hbase] at heq
  rw [heq]
  decide

/-- C3: for a payee with a single payout of gross 500 and two active
fixed-strategy advances in FIFO (creation) order, each of fixed amount
300 and remaining 300, the engine allocates 300 to the first advance,
200 to the second (capped by the room left on the payout), drives the
payout's net amount to 0, and leaves the second advance's working
remaining balance at 100. -/
theorem advance_fifo_deduction :
    (apply_advance_allocations
      [⟨10, some "fixed", 300, 0, 300, "active"⟩,
       ⟨20, some "fixed", 300, 0, 300, "active"⟩]
      [⟨1, 500⟩]).allocs = [⟨1, 10, 300⟩, ⟨1, 20, 200⟩] ∧
    (apply_advance_allocations
      [⟨10, some "fixed", 300, 0, 300, "active"⟩,
       ⟨20, some "fixed", 300, 0, 300, "active"⟩]
      [⟨1, 500⟩]).payouts = [⟨1, 0⟩] ∧
    (apply_advance_allocations
      [⟨10, some "fixed", 300, 0, 300, "active"⟩,
       ⟨20, some "fixed", 300, 0, 300, "active"⟩]
      [⟨1, 500⟩]).rem 10 = 0 ∧
    (apply_advance_allocations
      [⟨10, some "fixed", 300, 0, 300, "active"⟩,
       ⟨20, some "fixed", 300, 0, 300, "active"⟩]
      [⟨1, 500⟩]).rem 20 = 100 := by
  refine ⟨by decide, by decide, by decide, by decide⟩

/-- C10: for every frequency outside the three supported ones,
`payout_plan` returns the empty list and `allocate_amounts` raises
`ValueError` (modelled as `none`), so no per-slot amounts exist for an
unknown frequency. -/
theorem unknown_frequency_rejected (frequency : String)
    (h : frequency ∉ ["weekly", "biweekly", "monthly"]) (m : ℚ) :
    payout_plan frequency = [] ∧ allocate_amounts m frequency = none := by
  have h1 : frequency ≠ "weekly" := by
    intro he; exact h (by rw [he]; decide)
  have h2 : frequency ≠ "biweekly" := by
    intro he; exact h (by rw [he]; decide)
  have h3 : frequency ≠ "monthly" := by
    intro he; exact h (by rw [he]; decide)
  have hplan : payout_plan frequency = [] := by
    unfold payout_plan
    rw [if_neg h1, if_neg h2, if_neg h3]
  refine ⟨hplan, ?_⟩
  unfold allocate_amounts
  rw [if_pos hplan]

theorem unknown_frequency_rejected_witness :
    "quarterly" ∉ ["weekly", "biweekly", "monthly"] ∧
    payout_plan "quarterly" = [] ∧
    allocate_amounts 1000 "quarterly" = none :=
  ⟨by decide, unknown_frequency_rejected "quarterly" (by decide) 1000⟩

/-- C2 counterexample: a valid, Active, weekly payee with monthly amount
1000.10, start date on the first pay date and no adjustments (so the
same effective compensation on every pay date) receives gross schedule
amounts summing to 1000.12, not 1000.10: `build_pay_schedule` emits the
even quantized share for every slot and no slot absorbs the rounding
remainder. -/
theorem build_pay_schedule_cent_drift :
    let record : ModelRecord :=
      ⟨1, "Active", "M1", "Real", "Working", some ⟨2025, 10, 1⟩, "Wire",
        "weekly", some (100010 / 100), [], []⟩
    record.has_errors = false ∧
    (∀ pd ∈ get_pay_dates 2025 10,
      resolve_monthly_amount record pd = some (100010 / 100)) ∧
    (∀ pd ∈ get_pay_dates 2025 10,
      is_eligible_for_date record pd = true) ∧
    ((scheduleRowsForRecord record 2025 10).map (fun r => r.amount)).sum =
      100012 / 100 ∧
    ((scheduleRowsForRecord record 2025 10).map (fun r => r.amount)).sum ≠
      100010 / 100 := by
  refine ⟨by decide, by decide, by decide, by decide, by decide⟩

theorem buildRowsAux_even_share (record : ModelRecord)
    (payDates : List PDate) (n : ℕ) (M : ℚ) (hM : 0 < M)
    (plan : List ℕ) :
    ∀ skipped : Bool,
      (∀ i ∈ plan,
        resolve_monthly_amount record (payDates.getD i ⟨0, 0, 0⟩) = some M) →
      (∀ i ∈ plan,
        is_eligible_for_date record (payDates.getD i ⟨0, 0, 0⟩) = true) →
      (buildRowsAux record payDates n plan skipped).map (fun r => r.amount)
        = List.replicate plan.length (quantize2 (M / (n : ℚ))) := by
  induction plan with
  | nil => intro skipped _ _; rfl
  | cons i rest ih =>
    intro skipped hres helig
    have h1 := hres i (List.mem_cons_self i rest)
    have h2 := helig i (List.mem_cons_self i rest)
    simp only [buildRowsAux, h1, if_neg (not_le.mpr hM), h2, if_true,
      List.map_cons, List.length_cons, List.replicate_succ]
    exact congrArg _ (ih false
      (fun j hj => hres j (List.mem_cons_of_mem i hj))
      (fun j hj => helig j (List.mem_cons_of_mem i hj)))

/-- C2 amended: for every valid Active payee whose effective
compensation resolves to the same positive amount `M` on every pay date
of its plan and who is eligible on every such date, the gross amounts
emitted by `build_pay_schedule` are each the even share
`quantize2 (M / n)` for `n` plan slots, and they sum to
`n * quantize2 (M / n)` — not in general to `M`: no slot absorbs the
rounding remainder. -/
theorem build_pay_schedule_even_shares (record : ModelRecord)
    (year month : ℕ) (M : ℚ) (hM : 0 < M)
    (herr : record.has_errors = false)
    (hamt : record.amount_monthly ≠ none)
    (hfreq : record.payment_frequency ∈ ["weekly", "biweekly", "monthly"])
    (hres : ∀ i ∈ payout_plan record.payment_frequency,
      resolve_monthly_amount record
        ((get_pay_dates year month).getD i ⟨0, 0, 0⟩) = some M)
    (helig : ∀ i ∈ payout_plan record.payment_frequency,
      is_eligible_for_date record
        ((get_pay_dates year month).getD i ⟨0, 0, 0⟩) = true) :
    (scheduleRowsForRecord record year month).map (fun r => r.amount)
      = List.replicate (payout_plan record.payment_frequency).length
        (quantize2 (M / ((payout_plan record.payment_frequency).length : ℚ)))
    ∧ ((scheduleRowsForRecord record year month).map (fun r => r.amount)).sum
      = ((payout_plan record.payment_frequency).length : ℚ) *
        quantize2 (M / ((payout_plan record.payment_frequency).length : ℚ)) := by
  have hne := payout_plan_ne_nil hfreq
  have hmap :
      (scheduleRowsForRecord record year month).map (fun r => r.amount)
        = List.replicate (payout_plan record.payment_frequency).length
          (quantize2 (M /
            ((payout_plan record.payment_frequency).length : ℚ))) := by
    unfold scheduleRowsForRecord
    rw [if_neg (by simp [herr, hamt])]
    rw [if_neg hne]
    exact buildRowsAux_even_share record (get_pay_dates year month)
      (payout_plan record.payment_frequency).length M hM
      (payout_plan record.payment_frequency) false hres helig
  refine ⟨hmap, ?_⟩
  rw [hmap, List.sum_replicate, nsmul_eq_mul]

theorem build_pay_schedule_even_shares_witness :
    let record : ModelRecord :=
      ⟨1, "Active", "M1", "Real", "Working", some ⟨2025, 10, 1⟩, "Wire",
        "weekly", some (100010 / 100), [], []⟩
    (0 : ℚ) < 100010 / 100 ∧
    record.has_errors = false ∧
    record.amount_monthly ≠ none ∧
    "weekly" ∈ ["weekly", "biweekly", "monthly"] ∧
    (∀ i ∈ payout_plan "weekly",
      resolve_monthly_amount record
        ((get_pay_dates 2025 10).getD i ⟨0, 0, 0⟩) = some (100010 / 100)) ∧
    (∀ i ∈ payout_plan "weekly",
      is_eligible_for_date record
        ((get_pay_dates 2025 10).getD i ⟨0, 0, 0⟩) = true) ∧
    (scheduleRowsForRecord record 2025 10).map (fun r => r.amount)
      = List.replicate 4 (25003 / 100) := by
  intro record
  refine ⟨by decide, by decide, by decide, by decide, by decide, by decide, ?_⟩
  have h := build_pay_schedule_even_shares record 2025 10 (100010 / 100)
    (by decide) (by decide) (by decide) (by decide) (by decide) (by decide)
  rw [h.1]
  decide

theorem plannedTotalForAdvance_nil (advanceId : ℕ) :
    plannedTotalForAdvance advanceId [] = 0 := rfl

theorem plannedTotalForAdvance_cons (advanceId : ℕ)
    (al : PayoutAdvanceAllocation) (l : List PayoutAdvanceAllocation) :
    plannedTotalForAdvance advanceId (al :: l)
      = (if al.advance_id = advanceId then al.planned_amount else 0)
        + plannedTotalForAdvance advanceId l := by
  unfold plannedTotalForAdvance
  rw [List.filter_cons]
  by_cases h : al.advance_id = advanceId
  · rw [if_pos (by simpa using h), if_pos h, List.map_cons, List.sum_cons]
  · rw [if_neg (by simpa using h), if_neg h, zero_add]

theorem plannedTotalForAdvance_append (advanceId : ℕ)
    (l1 l2 : List PayoutAdvanceAllocation) :
    plannedTotalForAdvance advanceId (l1 ++ l2)
      = plannedTotalForAdvance advanceId l1
        + plannedTotalForAdvance advanceId l2 := by
  induction l1 with
  | nil => rw [List.nil_append, plannedTotalForAdvance_nil, zero_add]
  | cons al l ih =>
    rw [List.cons_append, plannedTotalForAdvance_cons,
      plannedTotalForAdvance_cons, ih, add_assoc]

theorem plannedTotalForPayout_nil (payoutId : ℕ) :
    plannedTotalForPayout payoutId [] = 0 := rfl

theorem plannedTotalForPayout_cons (payoutId : ℕ)
    (al : PayoutAdvanceAllocation) (l : List PayoutAdvanceAllocation) :
    plannedTotalForPayout payoutId (al :: l)
      = (if al.payout_id = payoutId then al.planned_amount else 0)
        + plannedTotalForPayout payoutId l := by
  unfold plannedTotalForPayout
  rw [List.filter_cons]
  by_cases h : al.payout_id = payoutId
  · rw [if_pos (by simpa using h), if_pos h, List.map_cons, List.sum_cons]
  · rw [if_neg (by simpa using h), if_neg h, zero_add]

theorem plannedTotalForPayout_append (payoutId : ℕ)
    (l1 l2 : List PayoutAdvanceAllocation) :
    plannedTotalForPayout payoutId (l1 ++ l2)
      = plannedTotalForPayout payoutId l1
        + plannedTotalForPayout payoutId l2 := by
  induction l1 with
  | nil => rw [List.nil_append, plannedTotalForPayout_nil, zero_add]
  | cons al l ih =>
    rw [List.cons_append, plannedTotalForPayout_cons,
      plannedTotalForPayout_cons, ih, add_assoc]

theorem plannedTotalForPayout_all (payoutId : ℕ)
    (l : List PayoutAdvanceAllocation)
    (h : ∀ al ∈ l, al.payout_id = payoutId) :
    plannedTotalForPayout payoutId l
      = (l.map (fun al => al.planned_amount)).sum := by
  induction l with
  | nil => rfl
  | cons al rest ih =>
    rw [plannedTotalForPayout_cons,
      if_pos (h al (List.mem_cons_self al rest)), List.map_cons,
      List.sum_cons, ih (fun al2 hal2 => h al2 (List.mem_cons_of_mem al hal2))]

theorem plannedTotalForPayout_none (payoutId : ℕ)
    (l : List PayoutAdvanceAllocation)
    (h : ∀ al ∈ l, al.payout_id ≠ payoutId) :
    plannedTotalForPayout payoutId l = 0 := by
  induction l with
  | nil => rfl
  | cons al rest ih =>
    rw [plannedTotalForPayout_cons,
      if_neg (h al (List.mem_cons_self al rest)),
      ih (fun al2 hal2 => h al2 (List.mem_cons_of_mem al hal2)), zero_add]

theorem walk_allocs_spec (pid : ℕ) (available : ℚ) :
    ∀ (advs : List ModelAdvance) (s : WalkState),
      ∃ new : List PayoutAdvanceAllocation,
        (walkAdvances pid available advs s).allocs = s.allocs ++ new ∧
        (∀ al ∈ new, al.payout_id = pid ∧ 0 < al.planned_amount) ∧
        (walkAdvances pid available advs s).payoutAmount
          = s.payoutAmount - (new.map (fun al => al.planned_amount)).sum ∧
        (walkAdvances pid available advs s).totalDeducted
          = s.totalDeducted + (new.map (fun al => al.planned_amount)).sum ∧
        (∀ j, (walkAdvances pid available advs s).rem j
          = s.rem j - plannedTotalForAdvance j new) ∧
        ((∀ j, 0 ≤ s.rem j) →
          ∀ j, 0 ≤ (walkAdvances pid available advs s).rem j) ∧
        (s.payoutAmount = available - s.totalDeducted → 0 ≤ s.payoutAmount →
          0 ≤ (walkAdvances pid available advs s).payoutAmount ∧
          (walkAdvances pid available advs s).payoutAmount
            = available - (walkAdvances pid available advs s).totalDeducted)
  | [], s => by
    refine ⟨[], by simp [walkAdvances], by simp, by simp [walkAdvances],
      by simp [walkAdvances],
      fun j => by simp [walkAdvances, plannedTotalForAdvance_nil],
      fun h j => by simpa [walkAdvances] using h j,
      fun h1 h2 => ⟨by simpa [walkAdvances] using h2,
        by simpa [walkAdvances] using h1⟩⟩
  | adv :: rest, s => by
    by_cases h1 : s.rem adv.id ≤ 0
    · have hw : walkAdvances pid available (adv :: rest) s
          = walkAdvances pid available rest s := by
        simp only [walkAdvances, if_pos h1]
      rw [hw]; exact walk_allocs_spec pid available rest s
    · set candidate : ℚ :=
        if adv.strategy.getD "fixed" = "fixed" then adv.fixed_amount
        else s.payoutAmount * (adv.percent_rate / 100) with hcand
      set planned : ℚ :=
        min (min candidate (s.rem adv.id)) (max (available - s.totalDeducted) 0)
        with hplanned
      by_cases h2 : planned ≤ 0
      · have hw : walkAdvances pid available (adv :: rest) s
            = walkAdvances pid available rest s := by
          simp only [walkAdvances, if_neg h1, ← hcand, ← hplanned, if_pos h2]
        rw [hw]; exact walk_allocs_spec pid available rest s
      · have hple : planned ≤ s.rem adv.id :=
          le_trans (min_le_left _ _) (min_le_right _ _)
        have hproom : planned ≤ max (available - s.totalDeducted) 0 :=
          min_le_right _ _
        set s2 : WalkState :=
          { payoutAmount := s.payoutAmount - planned
            totalDeducted := s.totalDeducted + planned
            rem := fun j => if j = adv.id then s.rem adv.id - planned
              else s.rem j
            allocs := s.allocs ++ [⟨pid, adv.id, planned⟩] } with hs2
        have hs2rem : ∀ j, s2.rem j
            = s.rem j - plannedTotalForAdvance j [⟨pid, adv.id, planned⟩] := by
          intro j
          rw [show plannedTotalForAdvance j [⟨pid, adv.id, planned⟩]
            = (if adv.id = j then planned else 0) by
              rw [plannedTotalForAdvance_cons, plannedTotalForAdvance_nil,
                add_zero]]
          by_cases hid : j = adv.id
          · subst hid
            simp only [hs2, eq_self_iff_true, if_true]
          · have hid2 : ¬ (adv.id = j) := fun hc => hid hc.symm
            simp only [hs2, if_neg hid, if_neg hid2, sub_zero]
        have hstep : ∀ j, 0 ≤ s.rem j → 0 ≤ s2.rem j := by
          intro j hj
          by_cases hid : j = adv.id
          · subst hid
            simp only [hs2, eq_self_iff_true, if_true]
            linarith
          · simp only [hs2, if_neg hid]
            exact hj
        have hinv : s.payoutAmount = available - s.totalDeducted →
            0 ≤ s.payoutAmount →
            0 ≤ s2.payoutAmount ∧
              s2.payoutAmount = available - s2.totalDeducted := by
          intro hEq hNN
          have hmax : max (available - s.totalDeducted) 0
              = s.payoutAmount := by
            rw [← hEq]
            exact max_eq_left hNN
          constructor
          · have : planned ≤ s.payoutAmount := hmax ▸ hproom
            simp only [hs2]
            linarith
          · simp only [hs2]
            rw [hEq]; ring
        by_cases h3 : available - s2.totalDeducted ≤ 0
        · have hw : walkAdvances pid available (adv :: rest) s = s2 := by
            simp only [walkAdvances, if_neg h1, ← hcand, ← hplanned,
              if_neg h2, ← hs2, if_pos h3]
          rw [hw]
          refine ⟨[⟨pid, adv.id, planned⟩], by simp [hs2], ?_, ?_, ?_,
            hs2rem, ?_, hinv⟩
          · intro al hal
            rw [List.mem_singleton] at hal
            subst hal
            exact ⟨rfl, not_le.mp h2⟩
          · simp [hs2]
          · simp [hs2]
          · intro h j
            exact hstep j (h j)
        · have hw : walkAdvances pid available (adv :: rest) s
              = walkAdvances pid available rest s2 := by
            simp only [walkAdvances, if_neg h1, ← hcand, ← hplanned,
              if_neg h2, ← hs2, if_neg h3]
          rw [hw]
          obtain ⟨new2, ha, hmem, hpa, htd, hrem, hnn, hpi⟩ :=
            walk_allocs_spec pid available rest s2
          refine ⟨⟨pid, adv.id, planned⟩ :: new2, ?_, ?_, ?_, ?_, ?_, ?_, ?_⟩
          · rw [ha]
            simp [hs2]
          · intro al hal
            rcases List.mem_cons.mp hal with hal | hal
            · subst hal
              exact ⟨rfl, not_le.mp h2⟩
            · exact hmem al hal
          · rw [hpa]
            simp only [hs2, List.map_cons, List.sum_cons]
            ring
          · rw [htd]
            simp only [hs2, List.map_cons, List.sum_cons]
            ring
          · intro j
            rw [hrem j, hs2rem j, plannedTotalForAdvance_cons,
              plannedTotalForAdvance_cons, plannedTotalForAdvance_nil]
            ring
          · intro h j
            exact hnn (fun j2 => hstep j2 (h j2)) j
          · intro hEq hNN
            obtain ⟨hnn2, heq2⟩ := hinv hEq hNN
            exact hpi heq2 hnn2
/-- C4 counterexample: payout of gross 1000 with a fixed advance of 300
first in FIFO order and a percent advance at 10% second.  The claim
says the percent candidate is the gross amount times the rate
(1000 * 10 / 100 = 100, unchanged by the clamps here); the engine
instead deducts 70 = (1000 - 300) * 10 / 100, because the percent
candidate reads the payout's already-reduced current amount. -/
theorem percent_candidate_not_gross :
    (apply_advance_allocations
      [⟨10, some "fixed", 300, 0, 300, "active"⟩,
       ⟨20, some "percent", 0, 10, 1000, "active"⟩]
      [⟨1, 1000⟩]).allocs = [⟨1, 10, 300⟩, ⟨1, 20, 70⟩] ∧
    min (min ((1000 : ℚ) * (10 / 100)) 1000) (max (1000 - 300) 0) = 100 ∧
    (70 : ℚ) ≠ 100 := by
  refine ⟨by decide, by decide, by decide⟩

/-- C4 amended: when the walk reaches a percent-strategy advance in
state `s`, the candidate it clamps and records is
`s.payoutAmount * percentRate / 100`, computed from the payout's
current amount — which equals the gross amount minus the deductions
already applied to this payout in this run (second conjunct) — not from
the gross amount itself; they agree only when nothing was deducted
before. -/
theorem percent_candidate_current_amount (pid : ℕ) (available : ℚ)
    (adv : ModelAdvance) (rest : List ModelAdvance) (s : WalkState)
    (hpercent : adv.strategy.getD "fixed" ≠ "fixed")
    (hrem : 0 < s.rem adv.id)
    (hpos : 0 < min (min (s.payoutAmount * (adv.percent_rate / 100))
      (s.rem adv.id)) (max (available - s.totalDeducted) 0)) :
    List.IsPrefix
      (s.allocs ++ [(⟨pid, adv.id,
        min (min (s.payoutAmount * (adv.percent_rate / 100))
          (s.rem adv.id)) (max (available - s.totalDeducted) 0)⟩ :
          PayoutAdvanceAllocation)])
      (walkAdvances pid available (adv :: rest) s).allocs ∧
    (s.payoutAmount = available - s.totalDeducted → 0 ≤ s.payoutAmount →
      (walkAdvances pid available (adv :: rest) s).payoutAmount
        = available - (walkAdvances pid available (adv :: rest) s).totalDeducted) := by
  constructor
  · have hcand : (if adv.strategy.getD "fixed" = "fixed" then adv.fixed_amount
        else s.payoutAmount * (adv.percent_rate / 100))
        = s.payoutAmount * (adv.percent_rate / 100) := if_neg hpercent
    by_cases h3 : available -
        (s.totalDeducted + min (min (s.payoutAmount * (adv.percent_rate / 100))
          (s.rem adv.id)) (max (available - s.totalDeducted) 0)) ≤ 0
    · have hw : walkAdvances pid available (adv :: rest) s
          = { payoutAmount := s.payoutAmount -
                min (min (s.payoutAmount * (adv.percent_rate / 100))
                  (s.rem adv.id)) (max (available - s.totalDeducted) 0)
              totalDeducted := s.totalDeducted +
                min (min (s.payoutAmount * (adv.percent_rate / 100))
                  (s.rem adv.id)) (max (available - s.totalDeducted) 0)
              rem := fun j => if j = adv.id then s.rem adv.id -
                min (min (s.payoutAmount * (adv.percent_rate / 100))
                  (s.rem adv.id)) (max (available - s.totalDeducted) 0)
                else s.rem j
              allocs := s.allocs ++ [⟨pid, adv.id,
                min (min (s.payoutAmount * (adv.percent_rate / 100))
                  (s.rem adv.id)) (max (available - s.totalDeducted) 0)⟩] } := by
        simp only [walkAdvances, if_neg (not_le.mpr hrem), hcand,
          if_neg (not_le.mpr hpos), if_pos h3]
      rw [hw]
    · have hw : walkAdvances pid available (adv :: rest) s
          = walkAdvances pid available rest
            { payoutAmount := s.payoutAmount -
                min (min (s.payoutAmount * (adv.percent_rate / 100))
                  (s.rem adv.id)) (max (available - s.totalDeducted) 0)
              totalDeducted := s.totalDeducted +
                min (min (s.payoutAmount * (adv.percent_rate / 100))
                  (s.rem adv.id)) (max (available - s.totalDeducted) 0)
              rem := fun j => if j = adv.id then s.rem adv.id -
                min (min (s.payoutAmount * (adv.percent_rate / 100))
                  (s.rem adv.id)) (max (available - s.totalDeducted) 0)
                else s.rem j
              allocs := s.allocs ++ [⟨pid, adv.id,
                min (min (s.payoutAmount * (adv.percent_rate / 100))
                  (s.rem adv.id)) (max (available - s.totalDeducted) 0)⟩] } := by
        simp only [walkAdvances, if_neg (not_le.mpr hrem), hcand,
          if_neg (not_le.mpr hpos), if_neg h3]
      rw [hw]
      obtain ⟨new2, ha, _⟩ := walk_allocs_spec pid available rest
        { payoutAmount := s.payoutAmount -
            min (min (s.payoutAmount * (adv.percent_rate / 100))
              (s.rem adv.id)) (max (available - s.totalDeducted) 0)
          totalDeducted := s.totalDeducted +
            min (min (s.payoutAmount * (adv.percent_rate / 100))
              (s.rem adv.id)) (max (available - s.totalDeducted) 0)
          rem := fun j => if j = adv.id then s.rem adv.id -
            min (min (s.payoutAmount * (adv.percent_rate / 100))
              (s.rem adv.id)) (max (available - s.totalDeducted) 0)
            else s.rem j
          allocs := s.allocs ++ [⟨pid, adv.id,
            min (min (s.payoutAmount * (adv.percent_rate / 100))
              (s.rem adv.id)) (max (available - s.totalDeducted) 0)⟩] }
      rw [ha]
      exact List.prefix_append _ new2
  · intro hEq hNN
    obtain ⟨_, _, _, _, _, _, _, hpi⟩ :=
      walk_allocs_spec pid available (adv :: rest) s
    exact (hpi hEq hNN).2

theorem percent_candidate_current_amount_witness :
    let s : WalkState := ⟨700, 300, fun j => if j = 20 then 1000 else 0,
      [⟨1, 10, 300⟩]⟩
    ((⟨20, some "percent", 0, 10, 1000, "active"⟩ :
        ModelAdvance).strategy.getD "fixed" ≠ "fixed") ∧
    (0 : ℚ) < s.rem 20 ∧
    (0 : ℚ) < min (min (s.payoutAmount * ((10 : ℚ) / 100)) (s.rem 20))
      (max ((1000 : ℚ) - s.totalDeducted) 0) ∧
    List.IsPrefix ([⟨1, 10, 300⟩, ⟨1, 20, 70⟩] : List PayoutAdvanceAllocation)
      (walkAdvances 1 1000
        [⟨20, some "percent", 0, 10, 1000, "active"⟩] s).allocs := by
  intro s
  refine ⟨by decide, by decide, by decide, ?_⟩
  have h := percent_candidate_current_amount 1 1000
    ⟨20, some "percent", 0, 10, 1000, "active"⟩ [] s
    (by decide) (by decide) (by decide)
  obtain ⟨t, ht⟩ := h.1
  refine ⟨t, ?_⟩
  rw [← ht]
  exact congrArg (fun l => l ++ t) (by decide)

/-- C9 counterexample: recording a manual repayment of 150 against an
advance with remaining balance 100 is not rejected: the call succeeds,
records a repayment of the clamped amount 100, zeroes the advance's
remaining balance and closes it — the advance and repayment tables are
mutated. -/
theorem manual_over_repayment_not_rejected :
    let s : LedgerState :=
      ⟨[], [⟨1, some "fixed", 50, 0, 100, "active"⟩], [], []⟩
    (100 : ℚ) < 150 ∧
    record_manual_repayment s 1 150 =
      Except.ok ⟨[], [⟨1, some "fixed", 50, 0, 0, "closed"⟩], [],
        [⟨1, none, 100, "manual"⟩]⟩ := by
  refine ⟨by decide, by decide⟩

/-- C9 amended: a manual repayment with amount ≤ 0 is rejected with a
descriptive error and no mutation; an amount exceeding the advance's
remaining balance is not rejected — it is clamped to the remaining
balance, a repayment of the clamped amount is recorded, the advance's
remaining balance becomes 0 and the advance is closed. -/
theorem record_advance_repayment_over (adv : ModelAdvance) (amount : ℚ)
    (source : String) (payoutId : Option ℕ)
    (hover : adv.amount_remaining < amount)
    (hnn : 0 ≤ adv.amount_remaining)
    (hnc : adv.status ≠ "closed") :
    record_advance_repayment adv amount source payoutId =
      Except.ok ({ adv with amount_remaining := 0, status := "closed" },
        ⟨adv.id, payoutId, adv.amount_remaining,
          if source = "auto" then "auto" else "manual"⟩) := by
  simp only [record_advance_repayment,
    if_neg (not_le.mpr (lt_of_le_of_lt hnn hover)),
    min_eq_right (le_of_lt hover), close_advance_if_settled]
  rw [if_pos]
  constructor
  · show adv.amount_remaining - adv.amount_remaining ≤ 0
    rw [sub_self]
  · exact hnc

theorem record_manual_repayment_clamps (s : LedgerState) (advanceId : ℕ)
    (amount : ℚ) (adv : ModelAdvance)
    (hfind : s.advances.find? (fun a => a.id = advanceId) = some adv)
    (hover : adv.amount_remaining < amount)
    (hnn : 0 ≤ adv.amount_remaining)
    (hnotclosed : adv.status ≠ "closed") :
    record_manual_repayment s advanceId amount =
      Except.ok { s with
        advances := updateAdvance s.advances
          { adv with amount_remaining := 0, status := "closed" }
        repayments := s.repayments ++
          [⟨adv.id, none, adv.amount_remaining, "manual"⟩] } ∧
    (∀ amount2 ≤ (0 : ℚ), record_manual_repayment s advanceId amount2 =
      Except.error "Repayment amount must be greater than 0") := by
  constructor
  · simp only [record_manual_repayment, hfind]
    rw [record_advance_repayment_over adv amount "manual" none hover hnn
      hnotclosed]
    rfl
  · intro amount2 h2
    simp only [record_manual_repayment, hfind]
    simp only [record_advance_repayment, if_pos h2]

theorem record_manual_repayment_clamps_witness :
    let s : LedgerState :=
      ⟨[], [⟨1, some "fixed", 50, 0, 100, "active"⟩], [], []⟩
    s.advances.find? (fun a => a.id = 1) =
      some ⟨1, some "fixed", 50, 0, 100, "active"⟩ ∧
    (100 : ℚ) < 150 ∧ (0 : ℚ) ≤ 100 ∧ ("active" : String) ≠ "closed" ∧
    record_manual_repayment s 1 150 =
      Except.ok ⟨[], [⟨1, some "fixed", 50, 0, 0, "closed"⟩], [],
        [⟨1, none, 100, "manual"⟩]⟩ ∧
    record_manual_repayment s 1 (-5) =
      Except.error "Repayment amount must be greater than 0" := by
  intro s
  refine ⟨by decide, by decide, by decide, by decide, ?_, ?_⟩
  · have h := record_manual_repayment_clamps s 1 150
      ⟨1, some "fixed", 50, 0, 100, "active"⟩
      (by decide) (by decide) (by decide) (by decide)
    rw [h.1]
    decide
  · have h := record_manual_repayment_clamps s 1 150
      ⟨1, some "fixed", 50, 0, 100, "active"⟩
      (by decide) (by decide) (by decide) (by decide)
    exact h.2 (-5) (by decide)

theorem PDate.le_iff (a b : PDate) : PDate.le a b = true ↔
    (a.year < b.year ∨ (a.year = b.year ∧
      (a.month < b.month ∨ (a.month = b.month ∧ a.day ≤ b.day)))) := by
  unfold PDate.le
  by_cases h1 : a.year = b.year
  · rw [if_pos h1]
    by_cases h2 : a.month = b.month
    · rw [if_pos h2]
      simp only [decide_eq_true_eq]
      omega
    · rw [if_neg h2]
      simp only [decide_eq_true_eq]
      omega
  · rw [if_neg h1]
    simp only [decide_eq_true_eq]
    omega

theorem PDate.lt_iff (a b : PDate) : PDate.lt a b = true ↔
    (a.year < b.year ∨ (a.year = b.year ∧
      (a.month < b.month ∨ (a.month = b.month ∧ a.day < b.day)))) := by
  unfold PDate.lt
  by_cases h1 : a.year = b.year
  · rw [if_pos h1]
    by_cases h2 : a.month = b.month
    · rw [if_pos h2]
      simp only [decide_eq_true_eq]
      omega
    · rw [if_neg h2]
      simp only [decide_eq_true_eq]
      omega
  · rw [if_neg h1]
    simp only [decide_eq_true_eq]
    omega

theorem PDate.le_trans_dates {a b c : PDate} (h1 : PDate.le a b = true)
    (h2 : PDate.le b c = true) : PDate.le a c = true := by
  rw [PDate.le_iff] at h1 h2 ⊢
  omega

theorem PDate.le_of_lt_dates {a b : PDate} (h : PDate.lt a b = true) :
    PDate.le a b = true := by
  rw [PDate.lt_iff] at h
  rw [PDate.le_iff]
  omega

theorem PDate.le_of_not_lt_dates {a b : PDate}
    (h : ¬ PDate.lt b a = true) : PDate.le a b = true := by
  rw [PDate.lt_iff] at h
  rw [PDate.le_iff]
  omega

theorem PDate.eq_of_le_le {a b : PDate} (h1 : PDate.le a b = true)
    (h2 : PDate.le b a = true) : a = b := by
  rw [PDate.le_iff] at h1 h2
  cases a; cases b
  simp only [PDate.mk.injEq]
  simp only at h1 h2
  omega

theorem mem_insertAdjustment (x : PDate × ℚ) (l : List (PDate × ℚ))
    (y : PDate × ℚ) : y ∈ insertAdjustment x l ↔ y = x ∨ y ∈ l := by
  induction l with
  | nil => simp [insertAdjustment]
  | cons z zs ih =>
    unfold insertAdjustment
    by_cases h : PDate.lt z.1 x.1 = true
    · rw [if_pos h]
      simp only [List.mem_cons, ih]
      tauto
    · rw [if_neg h]
      simp only [List.mem_cons]

theorem mem_sortAdjustments (l : List (PDate × ℚ)) (y : PDate × ℚ) :
    y ∈ sortAdjustments l ↔ y ∈ l := by
  induction l with
  | nil => simp [sortAdjustments]
  | cons z zs ih =>
    unfold sortAdjustments
    rw [mem_insertAdjustment, ih, List.mem_cons]

theorem perm_insertAdjustment (x : PDate × ℚ) (l : List (PDate × ℚ)) :
    (insertAdjustment x l).Perm (x :: l) := by
  induction l with
  | nil => exact List.Perm.refl _
  | cons z zs ih =>
    unfold insertAdjustment
    by_cases h : PDate.lt z.1 x.1 = true
    · rw [if_pos h]
      exact (List.Perm.cons z ih).trans (List.Perm.swap x z zs)
    · rw [if_neg h]

theorem perm_sortAdjustments (l : List (PDate × ℚ)) :
    (sortAdjustments l).Perm l := by
  induction l with
  | nil => exact List.Perm.refl _
  | cons z zs ih =>
    unfold sortAdjustments
    exact (perm_insertAdjustment z (sortAdjustments zs)).trans
      (List.Perm.cons z ih)

theorem sorted_insertAdjustment (x : PDate × ℚ) (l : List (PDate × ℚ))
    (h : l.Pairwise (fun u v => PDate.le u.1 v.1 = true)) :
    (insertAdjustment x l).Pairwise
      (fun u v => PDate.le u.1 v.1 = true) := by
  induction l with
  | nil => simp [insertAdjustment]
  | cons z zs ih =>
    rw [List.pairwise_cons] at h
    obtain ⟨hz, hzs⟩ := h
    unfold insertAdjustment
    by_cases hlt : PDate.lt z.1 x.1 = true
    · rw [if_pos hlt]
      rw [List.pairwise_cons]
      refine ⟨?_, ih hzs⟩
      intro w hw
      rcases (mem_insertAdjustment x zs w).mp hw with hw | hw
      · subst hw
        exact PDate.le_of_lt_dates hlt
      · exact hz w hw
    · rw [if_neg hlt]
      rw [List.pairwise_cons]
      refine ⟨?_, List.pairwise_cons.mpr ⟨hz, hzs⟩⟩
      intro w hw
      rcases List.mem_cons.mp hw with hw | hw
      · subst hw
        exact PDate.le_of_not_lt_dates hlt
      · exact PDate.le_trans_dates (PDate.le_of_not_lt_dates hlt) (hz w hw)

theorem sorted_sortAdjustments (l : List (PDate × ℚ)) :
    (sortAdjustments l).Pairwise
      (fun u v => PDate.le u.1 v.1 = true) := by
  induction l with
  | nil => simp [sortAdjustments]
  | cons z zs ih =>
    exact sorted_insertAdjustment z (sortAdjustments zs) ih

theorem scanAdjust_none_qualifying (pd : PDate) (acc : Option ℚ)
    (l : List (PDate × ℚ))
    (h : ∀ x ∈ l, ¬ PDate.le x.1 pd = true) :
    scanAdjust pd acc l = acc := by
  cases l with
  | nil => rfl
  | cons z zs =>
    cases z with
    | mk e a =>
      unfold scanAdjust
      rw [if_neg (h (e, a) (List.mem_cons_self _ _))]

theorem scanAdjust_sorted_max (pd : PDate) (e : PDate) (amt : ℚ) :
    ∀ (l : List (PDate × ℚ)) (acc : Option ℚ),
      l.Pairwise (fun u v => PDate.le u.1 v.1 = true) →
      l.Pairwise (fun u v => u.1 ≠ v.1) →
      (e, amt) ∈ l →
      PDate.le e pd = true →
      (∀ x ∈ l, PDate.le x.1 pd = true → PDate.le x.1 e = true) →
      scanAdjust pd acc l = some amt
  | [], acc => by intro _ _ hmem; cases hmem
  | (e1, a1) :: rest, acc => by
    intro hsorted hdist hmem hqe hmax
    rw [List.pairwise_cons] at hsorted hdist
    obtain ⟨hall, hsorted2⟩ := hsorted
    obtain ⟨hne, hdist2⟩ := hdist
    by_cases hq : PDate.le e1 pd = true
    · have hstep : scanAdjust pd acc ((e1, a1) :: rest)
          = if PDate.le e1 pd = true then scanAdjust pd (some a1) rest
            else acc := rfl
      rw [hstep, if_pos hq]
      rcases List.mem_cons.mp hmem with hmem | hmem
      · obtain ⟨he1, ha1⟩ : e = e1 ∧ amt = a1 := by
          rw [Prod.mk.injEq] at hmem
          exact hmem
        have hnoq : ∀ x ∈ rest, ¬ PDate.le x.1 pd = true := by
          intro x hx hxq
          have h1 : PDate.le x.1 e = true := hmax x
            (List.mem_cons_of_mem _ hx) hxq
          have h2 : PDate.le e x.1 = true := by
            rw [he1]; exact hall x hx
          exact hne x hx (he1 ▸ PDate.eq_of_le_le h2 h1)
        rw [scanAdjust_none_qualifying pd (some a1) rest hnoq, ha1]
      · exact scanAdjust_sorted_max pd e amt rest (some a1) hsorted2 hdist2
          hmem hqe
          (fun x hx hxq => hmax x (List.mem_cons_of_mem _ hx) hxq)
    · exfalso
      rcases List.mem_cons.mp hmem with hmem | hmem
      · rw [Prod.mk.injEq] at hmem
        exact hq (hmem.1 ▸ hqe)
      · exact hq (PDate.le_trans_dates (hall (e, amt) hmem) hqe)

/-- C8: the resolved monthly amount for a pay date is the amount of the
adjustment with the latest effective date on or before that date (first
conjunct), falling back to the base monthly amount when no adjustment
qualifies (second conjunct); and because resolution is per pay date, the
payee with base 2000, an adjustment to 1000 effective 2025-10-01 and
back to 2000 effective 2025-10-14, on weekly frequency for October 2025,
receives gross amounts [250, 500, 500, 500] on the 7th/14th/21st/31st,
totalling 1750 (third conjunct). -/
theorem resolve_monthly_amount_latest (record : ModelRecord)
    (payDate : PDate)
    (hdist : record.compensation_adjustments.Pairwise
      (fun u v => u.1 ≠ v.1)) :
    ((∀ e amt, (e, amt) ∈ record.compensation_adjustments →
        PDate.le e payDate = true →
        (∀ x ∈ record.compensation_adjustments,
          PDate.le x.1 payDate = true → PDate.le x.1 e = true) →
        resolve_monthly_amount record payDate = some amt) ∧
      ((∀ x ∈ record.compensation_adjustments,
          ¬ PDate.le x.1 payDate = true) →
        resolve_monthly_amount record payDate = record.amount_monthly)) ∧
    ((scheduleRowsForRecord ⟨1, "Active", "RAISE1", "Real", "Working",
        some ⟨2025, 10, 1⟩, "Wire", "weekly", some 2000,
        [(⟨2025, 10, 1⟩, 1000), (⟨2025, 10, 14⟩, 2000)], []⟩ 2025 10).map
        (fun r => (r.payDate.day, r.amount))
        = [(7, 250), (14, 500), (21, 500), (31, 500)] ∧
      ((scheduleRowsForRecord ⟨1, "Active", "RAISE1", "Real", "Working",
        some ⟨2025, 10, 1⟩, "Wire", "weekly", some 2000,
        [(⟨2025, 10, 1⟩, 1000), (⟨2025, 10, 14⟩, 2000)], []⟩ 2025 10).map
        (fun r => r.amount)).sum = 1750) := by
  refine ⟨⟨?_, ?_⟩, by decide, by decide⟩
  · intro e amt hmem hqe hmax
    have hne : record.compensation_adjustments ≠ [] := by
      intro h
      rw [h] at hmem
      cases hmem
    have hdistS : (sortAdjustments
        record.compensation_adjustments).Pairwise
        (fun u v => u.1 ≠ v.1) :=
      ((perm_sortAdjustments record.compensation_adjustments).pairwise_iff
        (fun h => h.symm) |>.mpr hdist)
    have hscan := scanAdjust_sorted_max payDate e amt
      (sortAdjustments record.compensation_adjustments) none
      (sorted_sortAdjustments record.compensation_adjustments)
      hdistS
      ((mem_sortAdjustments record.compensation_adjustments
        (e, amt)).mpr hmem)
      hqe
      (fun x hx hxq => hmax x
        ((mem_sortAdjustments record.compensation_adjustments x).mp hx) hxq)
    unfold resolve_monthly_amount
    rw [if_neg hne, hscan]
  · intro hnone
    by_cases hne : record.compensation_adjustments = []
    · unfold resolve_monthly_amount
      rw [if_pos hne]
    · have hscan := scanAdjust_none_qualifying payDate none
        (sortAdjustments record.compensation_adjustments)
        (fun x hx => hnone x
          ((mem_sortAdjustments record.compensation_adjustments x).mp hx))
      unfold resolve_monthly_amount
      rw [if_neg hne, hscan]

theorem resolve_monthly_amount_latest_witness :
    let record : ModelRecord := ⟨1, "Active", "RAISE1", "Real", "Working",
      some ⟨2025, 10, 1⟩, "Wire", "weekly", some 2000,
      [(⟨2025, 10, 1⟩, 1000), (⟨2025, 10, 14⟩, 2000)], []⟩
    record.compensation_adjustments.Pairwise (fun u v => u.1 ≠ v.1) ∧
    resolve_monthly_amount record ⟨2025, 10, 7⟩ = some 1000 ∧
    resolve_monthly_amount record ⟨2025, 10, 21⟩ = some 2000 := by
  intro record
  refine ⟨by decide, ?_, ?_⟩
  · exact (resolve_monthly_amount_latest record ⟨2025, 10, 7⟩
      (by decide)).1.1 ⟨2025, 10, 1⟩ 1000 (by decide) (by decide) (by decide)
  · exact (resolve_monthly_amount_latest record ⟨2025, 10, 21⟩
      (by decide)).1.1 ⟨2025, 10, 14⟩ 2000 (by decide) (by decide) (by decide)

/-- C5 counterexample: running payroll for a fresh period with one
candidate that has no prior match stores its payout with
`status = "not_paid"` but with the candidate's generated Notes value
(the empty string), not null: the merge defaults notes to
`payout.get("Notes")`, never to `None`. -/
theorem fresh_payout_notes_not_null :
    (run_payroll ⟨[]⟩ 2025 10
        [⟨"M1", ⟨2025, 10, 7⟩, 250, some ""⟩]).runs =
      [⟨2025, 10, [⟨"M1", ⟨2025, 10, 7⟩, 250, "not_paid", some ""⟩]⟩] ∧
    (some "" : Option String) ≠ none := by
  refine ⟨by decide, by decide⟩

theorem numRunsFor_eq_zero_iff (s : AppState) (y m : ℕ) :
    numRunsFor s y m = 0 ↔
    s.runs.find? (fun r =>
      r.target_year = y ∧ r.target_month = m) = none := by
  rw [numRunsFor, List.length_eq_zero, List.filter_eq_nil_iff,
    List.find?_eq_none]

theorem numRunsFor_replaceRun (runs : List ScheduleRun)
    (newRun : ScheduleRun) (y m : ℕ) (hy : newRun.target_year = y)
    (hm : newRun.target_month = m) :
    numRunsFor ⟨replaceRun newRun runs⟩ y m = numRunsFor ⟨runs⟩ y m := by
  induction runs with
  | nil => rfl
  | cons r rs ih =>
    have ih2 := ih
    simp only [numRunsFor] at ih2
    have hrep0 : replaceRun newRun (r :: rs)
        = if r.target_year = newRun.target_year ∧
            r.target_month = newRun.target_month then newRun :: rs
          else r :: replaceRun newRun rs := rfl
    by_cases h : r.target_year = newRun.target_year ∧
        r.target_month = newRun.target_month
    · have hrep : replaceRun newRun (r :: rs) = newRun :: rs := by
        rw [hrep0, if_pos h]
      have hr : r.target_year = y ∧ r.target_month = m :=
        ⟨h.1.trans hy, h.2.trans hm⟩
      simp only [numRunsFor, hrep, List.filter_cons]
      rw [if_pos (by simp [hy, hm]), if_pos (by simp [hr.1, hr.2])]
      simp only [List.length_cons]
    · have hrep : replaceRun newRun (r :: rs)
          = r :: replaceRun newRun rs := by
        rw [hrep0, if_neg h]
      simp only [numRunsFor, hrep, List.filter_cons]
      by_cases hr : r.target_year = y ∧ r.target_month = m
      · rw [if_pos (by simp [hr.1, hr.2]), if_pos (by simp [hr.1, hr.2])]
        simp only [List.length_cons]
        omega
      · rw [if_neg (by simpa using hr), if_neg (by simpa using hr)]
        exact ih2

theorem run_payroll_count (s : AppState) (y m : ℕ)
    (cs : List Candidate) (h : numRunsFor s y m ≤ 1) :
    numRunsFor (run_payroll s y m cs) y m = 1 := by
  by_cases h0 : numRunsFor s y m = 0
  · have hfind := (numRunsFor_eq_zero_iff s y m).mp h0
    have hrw : run_payroll s y m cs
        = ⟨s.runs ++ [⟨y, m, cs.map (mergeCandidate [])⟩]⟩ := by
      unfold run_payroll
      rw [hfind]
    rw [hrw]
    have h1 := h0
    simp only [numRunsFor] at h1 ⊢
    rw [List.filter_append, List.length_append, h1]
    have h2 : (List.filter (fun r =>
        decide (r.target_year = y ∧ r.target_month = m))
        [(⟨y, m, cs.map (mergeCandidate [])⟩ : ScheduleRun)]).length = 1 := by
      simp
    omega
  · have hfind : s.runs.find? (fun r =>
        r.target_year = y ∧ r.target_month = m) ≠ none := by
      intro hc
      exact h0 ((numRunsFor_eq_zero_iff s y m).mpr hc)
    obtain ⟨run, hrun⟩ := Option.ne_none_iff_exists'.mp hfind
    have hrw : run_payroll s y m cs
        = ⟨replaceRun ⟨y, m, cs.map (mergeCandidate run.payouts)⟩
          s.runs⟩ := by
      unfold run_payroll
      rw [hrun]
    rw [hrw, numRunsFor_replaceRun s.runs _ y m rfl rfl]
    show numRunsFor s y m = 1
    omega

/-- C5 amended: `runPayroll` refreshes the period's run in place — from
a state with no run for the period, any non-empty sequence of
invocations leaves exactly one run (first conjunct); a refresh stores
into that run exactly the merged candidates (second conjunct); a
candidate matching a snapshotted prior payout by `(code, payDate)`
keeps the prior status and notes verbatim (third conjunct); a candidate
with no prior match gets `status = "not_paid"` and notes equal to the
candidate's own generated Notes value — which is null only when the
candidate's notes were null, not in general (fourth conjunct). -/
theorem run_payroll_refresh_spec (s : AppState) (y m : ℕ)
    (css : List (List Candidate)) (h0 : numRunsFor s y m = 0)
    (hne : css ≠ []) :
    numRunsFor (css.foldl (fun st cs => run_payroll st y m cs) s) y m = 1 ∧
    (∀ (st : AppState) (run : ScheduleRun) (cs : List Candidate),
      st.runs.find? (fun r =>
        r.target_year = y ∧ r.target_month = m) = some run →
      run_payroll st y m cs =
        ⟨replaceRun ⟨y, m, cs.map (mergeCandidate run.payouts)⟩ st.runs⟩) ∧
    (∀ (oldPayouts : List StoredPayout) (c : Candidate) (status : String)
      (notes : Option String),
      snapshotLookup oldPayouts c.code c.pay_date = some (status, notes) →
      mergeCandidate oldPayouts c =
        ⟨c.code, c.pay_date, c.amount, status, notes⟩) ∧
    (∀ (oldPayouts : List StoredPayout) (c : Candidate),
      snapshotLookup oldPayouts c.code c.pay_date = none →
      mergeCandidate oldPayouts c =
        ⟨c.code, c.pay_date, c.amount, "not_paid", c.notes⟩) := by
  refine ⟨?_, ?_, ?_, ?_⟩
  · have hstep : ∀ (rest : List (List Candidate)) (st : AppState),
        numRunsFor st y m = 1 →
        numRunsFor (rest.foldl (fun st cs => run_payroll st y m cs) st) y m
          = 1 := by
      intro rest
      induction rest with
      | nil => intro st h1; exact h1
      | cons cs rest ih =>
        intro st h1
        exact ih (run_payroll st y m cs)
          (run_payroll_count st y m cs (by omega))
    cases css with
    | nil => exact absurd rfl hne
    | cons cs rest =>
      rw [List.foldl_cons]
      exact hstep rest (run_payroll s y m cs)
        (run_payroll_count s y m cs (by omega))
  · intro st run cs hfind
    unfold run_payroll
    rw [hfind]
  · intro oldPayouts c status notes hlook
    unfold mergeCandidate
    rw [hlook]
  · intro oldPayouts c hlook
    unfold mergeCandidate
    rw [hlook]

theorem run_payroll_refresh_spec_witness :
    numRunsFor ⟨[]⟩ 2025 10 = 0 ∧
    ([[⟨"M1", ⟨2025, 10, 7⟩, 250, some ""⟩],
      [⟨"M1", ⟨2025, 10, 7⟩, 250, some ""⟩,
       ⟨"M2", ⟨2025, 10, 14⟩, 100, some ""⟩]] : List (List Candidate)) ≠ [] ∧
    numRunsFor
      (([[⟨"M1", ⟨2025, 10, 7⟩, 250, some ""⟩],
        [⟨"M1", ⟨2025, 10, 7⟩, 250, some ""⟩,
         ⟨"M2", ⟨2025, 10, 14⟩, 100, some ""⟩]] :
          List (List Candidate)).foldl
        (fun st cs => run_payroll st 2025 10 cs) ⟨[]⟩) 2025 10 = 1 := by
  refine ⟨by decide, by decide, ?_⟩
  exact (run_payroll_refresh_spec ⟨[]⟩ 2025 10 _ (by decide) (by decide)).1

theorem foldlRemaining_nonneg (advances : List ModelAdvance) :
    ∀ (f : ℕ → ℚ), (∀ a ∈ advances, 0 ≤ a.amount_remaining) →
      (∀ j, 0 ≤ f j) →
      ∀ j, 0 ≤ (advances.foldl (fun f adv => fun j =>
        if j = adv.id then adv.amount_remaining else f j) f) j := by
  induction advances with
  | nil => intro f _ hf j; exact hf j
  | cons a rest ih =>
    intro f hadv hf j
    rw [List.foldl_cons]
    refine ih _ (fun b hb => hadv b (List.mem_cons_of_mem a hb)) ?_ j
    intro j2
    by_cases hj : j2 = a.id
    · rw [if_pos hj]
      exact hadv a (List.mem_cons_self a rest)
    · rw [if_neg hj]
      exact hf j2

theorem initialRemaining_nonneg (advances : List ModelAdvance)
    (h : ∀ a ∈ advances, 0 ≤ a.amount_remaining) :
    ∀ j, 0 ≤ initialRemaining advances j :=
  foldlRemaining_nonneg advances (fun _ => 0) h (fun _ => le_refl 0)

theorem foldlRemaining_not_mem (advances : List ModelAdvance) :
    ∀ (f : ℕ → ℚ) (j : ℕ), (∀ a ∈ advances, a.id ≠ j) →
      (advances.foldl (fun f adv => fun j =>
        if j = adv.id then adv.amount_remaining else f j) f) j = f j := by
  induction advances with
  | nil => intro f j _; rfl
  | cons a rest ih =>
    intro f j hne
    rw [List.foldl_cons]
    rw [ih _ j (fun b hb => hne b (List.mem_cons_of_mem a hb))]
    rw [if_neg (fun hc =>
      hne a (List.mem_cons_self a rest) hc.symm)]

theorem foldlRemaining_mem (advances : List ModelAdvance) :
    ∀ (f : ℕ → ℚ), advances.Pairwise (fun a b => a.id ≠ b.id) →
      ∀ adv ∈ advances,
        (advances.foldl (fun f adv => fun j =>
          if j = adv.id then adv.amount_remaining else f j) f) adv.id
          = adv.amount_remaining := by
  induction advances with
  | nil => intro f _ adv h; cases h
  | cons a rest ih =>
    intro f hpw adv hadv
    rw [List.pairwise_cons] at hpw
    obtain ⟨hhead, htail⟩ := hpw
    rw [List.foldl_cons]
    rcases List.mem_cons.mp hadv with hadv | hadv
    · subst hadv
      rw [foldlRemaining_not_mem rest _ adv.id
        (fun b hb hc => hhead b hb hc.symm)]
      rw [if_pos rfl]
    · exact ih _ htail adv hadv

theorem initialRemaining_eq (advances : List ModelAdvance)
    (hids : advances.Pairwise (fun a b => a.id ≠ b.id)) :
    ∀ adv ∈ advances,
      initialRemaining advances adv.id = adv.amount_remaining :=
  foldlRemaining_mem advances (fun _ => 0) hids

theorem forall₂_imp_of_mem {α β : Type} {P Q : α → β → Prop} :
    ∀ {l1 : List α} {l2 : List β},
      (∀ a ∈ l1, ∀ b, P a b → Q a b) →
      List.Forall₂ P l1 l2 → List.Forall₂ Q l1 l2 := by
  intro l1 l2 himp hf
  induction hf with
  | nil => exact List.Forall₂.nil
  | cons hab htail ih =>
    rename_i a b as bs
    exact List.Forall₂.cons
      (himp a (List.mem_cons_self a as) b hab)
      (ih (fun x hx c hc => himp x (List.mem_cons_of_mem a hx) c hc))

theorem applyPayouts_spec (advs : List ModelAdvance) :
    ∀ (payouts : List PayoutRow) (rem0 : ℕ → ℚ),
      (∀ p ∈ payouts, 0 ≤ p.amount) →
      (∀ j, 0 ≤ rem0 j) →
      payouts.Pairwise (fun p q => p.id ≠ q.id) →
      (∀ al ∈ (applyPayouts advs payouts rem0).allocs,
        al.payout_id ∈ payouts.map (fun p => p.id) ∧
          0 < al.planned_amount) ∧
      List.Forall₂ (fun p q =>
        q.id = p.id ∧
        q.amount = p.amount - plannedTotalForPayout p.id
          (applyPayouts advs payouts rem0).allocs ∧
        plannedTotalForPayout p.id
          (applyPayouts advs payouts rem0).allocs ≤ p.amount ∧
        0 ≤ q.amount) payouts (applyPayouts advs payouts rem0).payouts ∧
      (∀ j, (applyPayouts advs payouts rem0).rem j
          = rem0 j - plannedTotalForAdvance j
            (applyPayouts advs payouts rem0).allocs ∧
        0 ≤ (applyPayouts advs payouts rem0).rem j)
  | [], rem0 => by
    intro _ hrem _
    simp only [applyPayouts]
    refine ⟨fun al hal => absurd hal (List.not_mem_nil al),
      List.Forall₂.nil, fun j => ⟨?_, hrem j⟩⟩
    rw [plannedTotalForAdvance_nil, sub_zero]
  | p :: rest, rem0 => by
    intro hpay hrem hpw
    rw [List.pairwise_cons] at hpw
    obtain ⟨hhead, htail⟩ := hpw
    have hpayrest : ∀ q ∈ rest, 0 ≤ q.amount :=
      fun q hq => hpay q (List.mem_cons_of_mem p hq)
    by_cases hav : p.amount ≤ 0
    · have heq : applyPayouts advs (p :: rest) rem0
          = ⟨p :: (applyPayouts advs rest rem0).payouts,
            (applyPayouts advs rest rem0).rem,
            (applyPayouts advs rest rem0).allocs⟩ := by
        simp only [applyPayouts]
        rw [if_pos hav]
      obtain ⟨ihm, ihf, ihr⟩ :=
        applyPayouts_spec advs rest rem0 hpayrest hrem htail
      have hzero : plannedTotalForPayout p.id
          (applyPayouts advs rest rem0).allocs = 0 := by
        refine plannedTotalForPayout_none p.id _ ?_
        intro al hal hc
        obtain ⟨q, hq, hqid⟩ := List.mem_map.mp (ihm al hal).1
        exact hhead q hq (by rw [← hc, hqid])
      rw [heq]
      refine ⟨?_, ?_, ?_⟩
      · intro al hal
        refine ⟨?_, (ihm al hal).2⟩
        rw [List.map_cons, List.mem_cons]
        exact Or.inr (ihm al hal).1
      · refine List.Forall₂.cons ⟨rfl, ?_, ?_, ?_⟩ ihf
        · rw [hzero, sub_zero]
        · rw [hzero]
          exact hpay p (List.mem_cons_self p rest)
        · exact hpay p (List.mem_cons_self p rest)
      · exact ihr
    · have heq : applyPayouts advs (p :: rest) rem0
          = ⟨⟨p.id, (walkAdvances p.id p.amount advs
                ⟨p.amount, 0, rem0, []⟩).payoutAmount⟩ ::
              (applyPayouts advs rest (walkAdvances p.id p.amount advs
                ⟨p.amount, 0, rem0, []⟩).rem).payouts,
            (applyPayouts advs rest (walkAdvances p.id p.amount advs
              ⟨p.amount, 0, rem0, []⟩).rem).rem,
            (walkAdvances p.id p.amount advs
              ⟨p.amount, 0, rem0, []⟩).allocs ++
              (applyPayouts advs rest (walkAdvances p.id p.amount advs
                ⟨p.amount, 0, rem0, []⟩).rem).allocs⟩ := by
        simp only [applyPayouts]
        rw [if_neg hav]
      obtain ⟨new, hal, hmem, hpa, htd, hremw, hnnw, hpiw⟩ :=
        walk_allocs_spec p.id p.amount advs ⟨p.amount, 0, rem0, []⟩
      rw [List.nil_append] at hal
      have hsnn : ∀ j, 0 ≤ (walkAdvances p.id p.amount advs
          ⟨p.amount, 0, rem0, []⟩).rem j := hnnw hrem
      obtain ⟨hq0, _⟩ := hpiw (by show p.amount = p.amount - 0; ring)
        (le_of_lt (not_le.mp hav))
      obtain ⟨ihm, ihf, ihr⟩ := applyPayouts_spec advs rest
        (walkAdvances p.id p.amount advs ⟨p.amount, 0, rem0, []⟩).rem
        hpayrest hsnn htail
      have hnewall : ∀ al ∈ new, al.payout_id = p.id :=
        fun al h => (hmem al h).1
      have hnewsum : plannedTotalForPayout p.id new
          = (new.map (fun al => al.planned_amount)).sum :=
        plannedTotalForPayout_all p.id new hnewall
      have hrzero : plannedTotalForPayout p.id
          (applyPayouts advs rest (walkAdvances p.id p.amount advs
            ⟨p.amount, 0, rem0, []⟩).rem).allocs = 0 := by
        refine plannedTotalForPayout_none p.id _ ?_
        intro al hal2 hc
        obtain ⟨q, hq, hqid⟩ := List.mem_map.mp (ihm al hal2).1
        exact hhead q hq (by rw [← hc, hqid])
      rw [heq]
      refine ⟨?_, ?_, ?_⟩
      · intro al hal2
        rcases List.mem_append.mp hal2 with h | h
        · rw [hal] at h
          refine ⟨?_, (hmem al h).2⟩
          rw [List.map_cons, List.mem_cons, (hmem al h).1]
          exact Or.inl rfl
        · refine ⟨?_, (ihm al h).2⟩
          rw [List.map_cons, List.mem_cons]
          exact Or.inr (ihm al h).1
      · have hded : plannedTotalForPayout p.id
            ((walkAdvances p.id p.amount advs
              ⟨p.amount, 0, rem0, []⟩).allocs ++
              (applyPayouts advs rest (walkAdvances p.id p.amount advs
                ⟨p.amount, 0, rem0, []⟩).rem).allocs)
            = (new.map (fun al => al.planned_amount)).sum := by
          rw [plannedTotalForPayout_append, hrzero, add_zero, hal, hnewsum]
        refine List.Forall₂.cons ⟨rfl, ?_, ?_, hq0⟩ ?_
        · rw [hded]
          exact hpa
        · rw [hded]
          have := hq0
          rw [hpa] at this
          linarith
        · refine forall₂_imp_of_mem ?_ ihf
          intro p2 hp2 q2 hrel
          obtain ⟨h1, h2, h3, h4⟩ := hrel
          have hzero2 : plannedTotalForPayout p2.id
              (walkAdvances p.id p.amount advs
                ⟨p.amount, 0, rem0, []⟩).allocs = 0 := by
            refine plannedTotalForPayout_none p2.id _ ?_
            intro al hal2 hc
            rw [hal] at hal2
            exact hhead p2 hp2 (by rw [← (hmem al hal2).1, hc])
          have htrans : plannedTotalForPayout p2.id
              ((walkAdvances p.id p.amount advs
                ⟨p.amount, 0, rem0, []⟩).allocs ++
                (applyPayouts advs rest (walkAdvances p.id p.amount advs
                  ⟨p.amount, 0, rem0, []⟩).rem).allocs)
              = plannedTotalForPayout p2.id
                (applyPayouts advs rest (walkAdvances p.id p.amount advs
                  ⟨p.amount, 0, rem0, []⟩).rem).allocs := by
            rw [plannedTotalForPayout_append, hzero2, zero_add]
          exact ⟨h1, by rw [htrans]; exact h2, by rw [htrans]; exact h3, h4⟩
      · intro j
        obtain ⟨hr1, hr2⟩ := ihr j
        refine ⟨?_, hr2⟩
        rw [hr1, hremw j]
        rw [plannedTotalForAdvance_append, hal]
        show rem0 j - plannedTotalForAdvance j new
            - plannedTotalForAdvance j (applyPayouts advs rest
              (walkAdvances p.id p.amount advs
                ⟨p.amount, 0, rem0, []⟩).rem).allocs
          = rem0 j - (plannedTotalForAdvance j new
            + plannedTotalForAdvance j (applyPayouts advs rest
              (walkAdvances p.id p.amount advs
                ⟨p.amount, 0, rem0, []⟩).rem).allocs)
        ring

/-- C6: for a run of the allocation engine over a payee's payouts, the
sum of each advance's planned allocations never exceeds that advance's
remaining balance at the start of planning (first conjunct), and each
payout's total deductions never exceed its gross amount, so every
stored net amount is ≥ 0 (the pointwise relation between input and
output payouts). -/
theorem advance_allocation_invariants (advances : List ModelAdvance)
    (payouts : List PayoutRow)
    (hids : advances.Pairwise (fun a b => a.id ≠ b.id))
    (hrem : ∀ a ∈ advances, 0 ≤ a.amount_remaining)
    (hpay : ∀ p ∈ payouts, 0 ≤ p.amount)
    (hpids : payouts.Pairwise (fun p q => p.id ≠ q.id)) :
    (∀ adv ∈ advances,
      plannedTotalForAdvance adv.id
        (apply_advance_allocations advances payouts).allocs
        ≤ adv.amount_remaining) ∧
    List.Forall₂ (fun p q =>
      q.id = p.id ∧
      q.amount = p.amount - plannedTotalForPayout p.id
        (apply_advance_allocations advances payouts).allocs ∧
      plannedTotalForPayout p.id
        (apply_advance_allocations advances payouts).allocs ≤ p.amount ∧
      0 ≤ q.amount) payouts
      (apply_advance_allocations advances payouts).payouts := by
  by_cases hadv : advances = []
  · subst hadv
    have heq : apply_advance_allocations [] payouts
        = ⟨payouts, fun _ => 0, []⟩ := rfl
    rw [heq]
    refine ⟨fun adv h => absurd h (List.not_mem_nil adv), ?_⟩
    rw [List.forall₂_same]
    intro x hx
    refine ⟨rfl, ?_, ?_, hpay x hx⟩
    · rw [plannedTotalForPayout_nil, sub_zero]
    · rw [plannedTotalForPayout_nil]
      exact hpay x hx
  · have heq : apply_advance_allocations advances payouts
        = applyPayouts advances payouts (initialRemaining advances) := by
      unfold apply_advance_allocations
      rw [if_neg hadv]
    obtain ⟨_, ihf, ihr⟩ := applyPayouts_spec advances payouts
      (initialRemaining advances) hpay
      (initialRemaining_nonneg advances hrem) hpids
    rw [heq]
    refine ⟨?_, ihf⟩
    intro adv hadvm
    obtain ⟨hr1, hr2⟩ := ihr adv.id
    rw [hr1, initialRemaining_eq advances hids adv hadvm] at hr2
    linarith

theorem advance_allocation_invariants_witness :
    ([⟨10, some "fixed", 300, 0, 300, "active"⟩,
      ⟨20, some "fixed", 300, 0, 300, "active"⟩] :
      List ModelAdvance).Pairwise (fun a b => a.id ≠ b.id) ∧
    (∀ a ∈ ([⟨10, some "fixed", 300, 0, 300, "active"⟩,
      ⟨20, some "fixed", 300, 0, 300, "active"⟩] : List ModelAdvance),
      0 ≤ a.amount_remaining) ∧
    (∀ p ∈ ([⟨1, 500⟩] : List PayoutRow), 0 ≤ p.amount) ∧
    ([⟨1, 500⟩] : List PayoutRow).Pairwise (fun p q => p.id ≠ q.id) ∧
    (∀ adv ∈ ([⟨10, some "fixed", 300, 0, 300, "active"⟩,
      ⟨20, some "fixed", 300, 0, 300, "active"⟩] : List ModelAdvance),
      plannedTotalForAdvance adv.id
        (apply_advance_allocations
          [⟨10, some "fixed", 300, 0, 300, "active"⟩,
           ⟨20, some "fixed", 300, 0, 300, "active"⟩]
          [⟨1, 500⟩]).allocs ≤ adv.amount_remaining) := by
  refine ⟨by decide, by decide, by decide, by decide, ?_⟩
  exact (advance_allocation_invariants
    [⟨10, some "fixed", 300, 0, 300, "active"⟩,
     ⟨20, some "fixed", 300, 0, 300, "active"⟩]
    [⟨1, 500⟩] (by decide) (by decide) (by decide) (by decide)).1

theorem find?_updateAdvance_other (l : List ModelAdvance)
    (adv2 : ModelAdvance) (j : ℕ) (h : j ≠ adv2.id) :
    (updateAdvance l adv2).find? (fun a => a.id = j)
      = l.find? (fun a => a.id = j) := by
  induction l with
  | nil => rfl
  | cons a rest ih =>
    unfold updateAdvance at ih ⊢
    rw [List.map_cons, List.find?_cons, List.find?_cons]
    by_cases ha : a.id = adv2.id
    · rw [if_pos ha]
      have h1 : (decide (adv2.id = j)) = false := by
        simp only [decide_eq_false_iff_not]
        exact fun hc => h hc.symm
      have h2 : (decide (a.id = j)) = false := by
        simp only [decide_eq_false_iff_not]
        rw [ha]
        exact fun hc => h hc.symm
      rw [h1, h2]
      exact ih
    · rw [if_neg ha]
      cases hd : decide (a.id = j) with
      | true => rfl
      | false => exact ih

theorem find?_updateAdvance_self (l : List ModelAdvance)
    (adv adv2 : ModelAdvance) (hfound : l.find? (fun a => a.id = adv.id) = some adv)
    (hid : adv2.id = adv.id) :
    (updateAdvance l adv2).find? (fun a => a.id = adv.id)
      = some adv2 := by
  induction l with
  | nil => cases hfound
  | cons a rest ih =>
    rw [List.find?_cons] at hfound
    unfold updateAdvance at ih ⊢
    rw [List.map_cons, List.find?_cons]
    by_cases ha : a.id = adv.id
    · rw [if_pos (by rw [ha, ← hid])]
      rw [show (decide (adv2.id = adv.id)) = true by simp [hid]]
    · rw [show (decide (a.id = adv.id)) = false by simp [ha]] at hfound
      rw [if_neg (fun hc => ha (by rw [hc, hid]))]
      rw [show (decide (a.id = adv.id)) = false by simp [ha]]
      exact ih hfound

theorem record_advance_repayment_le (adv : ModelAdvance) (amount : ℚ)
    (source : String) (payoutId : Option ℕ) (hpos : 0 < amount)
    (hle : amount ≤ adv.amount_remaining) :
    record_advance_repayment adv amount source payoutId =
      Except.ok (close_advance_if_settled
        { adv with amount_remaining := adv.amount_remaining - amount },
        ⟨adv.id, payoutId, amount,
          if source = "auto" then "auto" else "manual"⟩) := by
  simp only [record_advance_repayment, if_neg (not_le.mpr hpos),
    min_eq_left hle]

theorem foldl_erase_cons_of_ne
    (L : List PayoutAdvanceAllocation) :
    ∀ (acc : List PayoutAdvanceAllocation) (x : PayoutAdvanceAllocation),
      (∀ al ∈ L, al ≠ x) →
      L.foldl (fun acc a => acc.erase a) (x :: acc)
        = x :: L.foldl (fun acc a => acc.erase a) acc := by
  induction L with
  | nil => intro acc x _; rfl
  | cons a rest ih =>
    intro acc x hne
    rw [List.foldl_cons, List.foldl_cons]
    rw [List.erase_cons_tail (by
      simp [(hne a (List.mem_cons_self a rest)).symm])]
    exact ih (acc.erase a) x
      (fun al hal => hne al (List.mem_cons_of_mem a hal))

theorem foldl_erase_filter (p : PayoutAdvanceAllocation → Bool) :
    ∀ (l : List PayoutAdvanceAllocation),
      (l.filter p).Nodup →
      (l.filter p).foldl (fun acc x => acc.erase x) l
        = l.filter (fun x => ! p x) := by
  intro l
  induction l with
  | nil => intro _; rfl
  | cons x xs ih =>
    intro hnd
    rw [List.filter_cons] at hnd ⊢
    by_cases hp : p x = true
    · rw [if_pos hp] at hnd ⊢
      rw [List.filter_cons]
      rw [if_neg (by simp [hp])]
      rw [List.foldl_cons, List.erase_cons_head]
      rw [List.nodup_cons] at hnd
      exact ih hnd.2
    · rw [if_neg hp] at hnd ⊢
      rw [List.filter_cons]
      rw [if_pos (by simp [hp])]
      have hne : ∀ al ∈ xs.filter p, al ≠ x := by
        intro al hal hc
        subst hc
        exact hp (List.of_mem_filter hal)
      rw [foldl_erase_cons_of_ne (xs.filter p) xs x hne]
      rw [ih hnd]

theorem realizeLoop_spec (pid : ℕ) :
    ∀ (allocs : List PayoutAdvanceAllocation) (s : LedgerState),
      (∀ al ∈ allocs, 0 < al.planned_amount ∧
        ∃ adv, s.advances.find? (fun a => a.id = al.advance_id) = some adv ∧
          al.planned_amount ≤ adv.amount_remaining) →
      allocs.Pairwise (fun a b => a.advance_id ≠ b.advance_id) →
      ∃ s2, realizeLoop pid allocs s = Except.ok s2 ∧
        s2.payouts = s.payouts ∧
        s2.repayments = s.repayments ++ allocs.map (fun al =>
          (⟨al.advance_id, some pid, al.planned_amount, "auto"⟩ :
            AdvanceRepayment)) ∧
        s2.allocations = allocs.foldl (fun acc al => acc.erase al)
          s.allocations ∧
        (∀ al ∈ allocs, ∀ adv,
          s.advances.find? (fun a => a.id = al.advance_id) = some adv →
          s2.advances.find? (fun a => a.id = al.advance_id)
            = some (close_advance_if_settled
              { adv with amount_remaining :=
                  adv.amount_remaining - al.planned_amount })) ∧
        (∀ j, (∀ al ∈ allocs, al.advance_id ≠ j) →
          s2.advances.find? (fun a => a.id = j)
            = s.advances.find? (fun a => a.id = j))
  | [], s => by
    intro _ _
    exact ⟨s, rfl, rfl, by rw [List.map_nil, List.append_nil], rfl,
      fun al hal => absurd hal (List.not_mem_nil al),
      fun j _ => rfl⟩
  | al :: rest, s => by
    intro hyps hpw
    rw [List.pairwise_cons] at hpw
    obtain ⟨hhead, htail⟩ := hpw
    obtain ⟨hpos, adv, hfind, hle⟩ := hyps al (List.mem_cons_self al rest)
    have hadvid : adv.id = al.advance_id := by
      have := List.find?_some hfind
      simpa using this
    set adv2 : ModelAdvance := close_advance_if_settled
      { adv with amount_remaining :=
        adv.amount_remaining - al.planned_amount } with hadv2
    have hadv2id : adv2.id = al.advance_id := by
      rw [hadv2]
      unfold close_advance_if_settled
      by_cases hc : ({ adv with amount_remaining :=
          adv.amount_remaining - al.planned_amount } :
          ModelAdvance).amount_remaining ≤ 0 ∧
          ({ adv with amount_remaining :=
            adv.amount_remaining - al.planned_amount } :
            ModelAdvance).status ≠ "closed"
      · rw [if_pos hc]
        exact hadvid
      · rw [if_neg hc]
        exact hadvid
    set s1 : LedgerState :=
      { s with
        advances := updateAdvance s.advances adv2
        allocations := s.allocations.erase al
        repayments := s.repayments ++
          [⟨adv.id, some pid, al.planned_amount, "auto"⟩] }
      with hs1
    have hstep2 : realizeLoop pid (al :: rest) s
        = realizeLoop pid rest s1 := by
      have hstep : realizeLoop pid (al :: rest) s
          = match s.advances.find? (fun a => a.id = al.advance_id) with
            | none => realizeLoop pid rest s
            | some adv =>
              match record_advance_repayment adv al.planned_amount "auto"
                  (some pid) with
              | Except.error e => Except.error e
              | Except.ok (adv2, repayment) =>
                realizeLoop pid rest
                  { s with
                    advances := updateAdvance s.advances adv2
                    allocations := s.allocations.erase al
                    repayments := s.repayments ++ [repayment] } := rfl
      rw [hstep]
      simp only [hfind,
        record_advance_repayment_le adv al.planned_amount "auto" (some pid)
          hpos hle]
      rfl
    rw [hstep2]
    have hfind1 : ∀ j, j ≠ al.advance_id →
        s1.advances.find? (fun a => a.id = j)
          = s.advances.find? (fun a => a.id = j) := by
      intro j hj
      rw [hs1]
      exact find?_updateAdvance_other s.advances adv2 j
        (fun hc => hj (hc.trans hadv2id))
    have hyprest : ∀ al2 ∈ rest, 0 < al2.planned_amount ∧
        ∃ advb, s1.advances.find? (fun a => a.id = al2.advance_id)
          = some advb ∧ al2.planned_amount ≤ advb.amount_remaining := by
      intro al2 hal2
      obtain ⟨hp2, adv2b, hfind2, hle2⟩ :=
        hyps al2 (List.mem_cons_of_mem al hal2)
      refine ⟨hp2, adv2b, ?_, hle2⟩
      rw [hfind1 al2.advance_id
        (fun hc => hhead al2 hal2 hc.symm)]
      exact hfind2
    obtain ⟨s2, hloop, hpay2, hrep2, hall2, hadv3, hframe⟩ :=
      realizeLoop_spec pid rest s1 hyprest htail
    refine ⟨s2, hloop, ?_, ?_, ?_, ?_, ?_⟩
    · rw [hpay2, hs1]
    · rw [hrep2, hs1, List.map_cons]
      show (s.repayments ++
          [(⟨adv.id, some pid, al.planned_amount, "auto"⟩ :
            AdvanceRepayment)]) ++
          rest.map (fun al =>
            (⟨al.advance_id, some pid, al.planned_amount, "auto"⟩ :
              AdvanceRepayment))
        = s.repayments ++
          ((⟨al.advance_id, some pid, al.planned_amount, "auto"⟩ :
            AdvanceRepayment) ::
            rest.map (fun al =>
              (⟨al.advance_id, some pid, al.planned_amount, "auto"⟩ :
                AdvanceRepayment)))
      rw [List.append_assoc, hadvid]
      rfl
    · rw [hall2, hs1, List.foldl_cons]
    · intro al2 hal2 advb hfindb
      rcases List.mem_cons.mp hal2 with heq | hal2
      · have hadvb : advb = adv := by
          rw [heq, hfind] at hfindb
          injection hfindb with h
          exact h.symm
        rw [heq, hadvb]
        rw [hframe al.advance_id
          (fun al3 hal3 => (hhead al3 hal3).symm)]
        rw [hs1]
        show (updateAdvance s.advances adv2).find?
          (fun a => a.id = al.advance_id) = some adv2
        rw [← hadvid]
        exact find?_updateAdvance_self s.advances adv adv2
          (by rw [hadvid]; exact hfind) (by rw [hadv2id, hadvid])
      · refine hadv3 al2 hal2 advb ?_
        rw [hfind1 al2.advance_id
          (fun hc => hhead al2 hal2 hc.symm)]
        exact hfindb
    · intro j hj
      rw [hframe j (fun al2 hal2 =>
        hj al2 (List.mem_cons_of_mem al hal2))]
      exact hfind1 j (fun hc =>
        hj al (List.mem_cons_self al rest) hc.symm)

/-- C7: setting a payout's status to `paid` realizes each of its planned
allocations into exactly one auto `AdvanceRepayment` of the planned
amount (the repayments list is extended by exactly one entry per
allocation), decrements each advance's remaining balance by the planned
amount — `close_advance_if_settled` clamps it at 0 and closes the
advance when it reaches 0 — and deletes the realized allocations; a
second `markPayoutPaid` on the same payout is a no-op on repayments,
advances and allocations. -/
theorem mark_payout_paid_realizes (s : LedgerState) (payoutId : ℕ)
    (note : Option String)
    (h1 : (s.allocations.filter
      (fun al => al.payout_id = payoutId)).Pairwise
      (fun a b => a.advance_id ≠ b.advance_id))
    (h2 : ∀ al ∈ s.allocations.filter
      (fun al => al.payout_id = payoutId),
      0 < al.planned_amount ∧
      ∃ adv, s.advances.find? (fun a => a.id = al.advance_id) = some adv ∧
        al.planned_amount ≤ adv.amount_remaining)
    (h3 : ∀ r ∈ s.repayments, r.payout_id ≠ some payoutId) :
    ∃ s2, update_payout s payoutId note "paid" = Except.ok s2 ∧
      s2.repayments = s.repayments ++
        (s.allocations.filter (fun al => al.payout_id = payoutId)).map
          (fun al => ⟨al.advance_id, some payoutId,
            al.planned_amount, "auto"⟩) ∧
      s2.allocations = s.allocations.filter
        (fun al => ¬ al.payout_id = payoutId) ∧
      (∀ al ∈ s.allocations.filter (fun al => al.payout_id = payoutId),
        ∀ adv, s.advances.find? (fun a => a.id = al.advance_id) = some adv →
          s2.advances.find? (fun a => a.id = al.advance_id)
            = some (close_advance_if_settled
              { adv with amount_remaining :=
                adv.amount_remaining - al.planned_amount })) ∧
      (∀ note2, ∃ s3, update_payout s2 payoutId note2 "paid"
          = Except.ok s3 ∧
        s3.repayments = s2.repayments ∧ s3.advances = s2.advances ∧
        s3.allocations = s2.allocations) := by
  have hnoop : ∀ (t : LedgerState) (note2 : Option String),
      t.allocations.filter (fun al => al.payout_id = payoutId) = [] →
      ∃ s3, update_payout t payoutId note2 "paid" = Except.ok s3 ∧
        s3.repayments = t.repayments ∧ s3.advances = t.advances ∧
        s3.allocations = t.allocations := by
    intro t note2 hf
    have hupd2 : update_payout t payoutId note2 "paid"
        = realize_allocations_for_paid_payout
          { t with payouts := t.payouts.map (fun p =>
            if p.id = payoutId then
              { p with notes := noteOrNone note2, status := "paid" }
            else p) } payoutId := rfl
    have hreal : realize_allocations_for_paid_payout
        { t with payouts := t.payouts.map (fun p =>
          if p.id = payoutId then
            { p with notes := noteOrNone note2, status := "paid" }
          else p) } payoutId
        = Except.ok { t with payouts := t.payouts.map (fun p =>
          if p.id = payoutId then
            { p with notes := noteOrNone note2, status := "paid" }
          else p) } := by
      simp only [realize_allocations_for_paid_payout]
      rw [if_pos hf]
    refine ⟨{ t with payouts := t.payouts.map (fun p =>
      if p.id = payoutId then
        { p with notes := noteOrNone note2, status := "paid" }
      else p) }, ?_, rfl, rfl, rfl⟩
    rw [hupd2, hreal]
  set s1 : LedgerState := { s with
    payouts := s.payouts.map (fun p =>
      if p.id = payoutId then
        { p with notes := noteOrNone note, status := "paid" }
      else p) } with hs1
  have hupd : update_payout s payoutId note "paid"
      = realize_allocations_for_paid_payout s1 payoutId := rfl
  by_cases hflt : s.allocations.filter
      (fun al => al.payout_id = payoutId) = []
  · have hreal : realize_allocations_for_paid_payout s1 payoutId
        = Except.ok s1 := by
      simp only [realize_allocations_for_paid_payout]
      rw [if_pos hflt]
    have hall : ∀ al ∈ s.allocations, ¬ (al.payout_id = payoutId) := by
      intro al hal hc
      have hm : al ∈ s.allocations.filter
          (fun al => al.payout_id = payoutId) :=
        List.mem_filter.mpr ⟨hal, by simpa using hc⟩
      rw [hflt] at hm
      cases hm
    refine ⟨s1, by rw [hupd, hreal], ?_, ?_, ?_, ?_⟩
    · rw [hflt, List.map_nil, List.append_nil]
    · exact (List.filter_eq_self.mpr
        (fun al hal => by simpa using hall al hal)).symm
    · intro al hal
      rw [hflt] at hal
      cases hal
    · intro note2
      exact hnoop s1 note2 hflt
  · have hany : ¬ (s.repayments.any
        (fun r => r.payout_id = some payoutId)) = true := by
      rw [List.any_eq_true]
      rintro ⟨r, hr, hp⟩
      exact h3 r hr (by simpa using hp)
    have hreal : realize_allocations_for_paid_payout s1 payoutId
        = realizeLoop payoutId (s.allocations.filter
          (fun al => al.payout_id = payoutId)) s1 := by
      simp only [realize_allocations_for_paid_payout]
      rw [if_neg hflt, if_neg hany]
    obtain ⟨s2, hloop, hpay2, hrep2, hall2, hadv2, hframe⟩ :=
      realizeLoop_spec payoutId
        (s.allocations.filter (fun al => al.payout_id = payoutId)) s1 h2 h1
    have hnodup : (s.allocations.filter
        (fun al => al.payout_id = payoutId)).Nodup :=
      h1.imp (fun h heq =>
        h (congrArg PayoutAdvanceAllocation.advance_id heq))
    have hallocs : s2.allocations = s.allocations.filter
        (fun al => ¬ al.payout_id = payoutId) := by
      rw [hall2]
      have hfe := foldl_erase_filter
        (fun al => al.payout_id = payoutId) s.allocations hnodup
      rw [show s1.allocations = s.allocations from rfl, hfe]
      exact List.filter_congr (fun al _ => by simp [decide_not])
    refine ⟨s2, by rw [hupd, hreal]; exact hloop, hrep2, hallocs, hadv2, ?_⟩
    intro note2
    refine hnoop s2 note2 ?_
    rw [hallocs]
    rw [List.filter_eq_nil_iff]
    intro al hal
    have := List.of_mem_filter hal
    simpa using this

theorem mark_payout_paid_realizes_witness :
    let s : LedgerState :=
      ⟨[⟨1, "not_paid", none⟩], [⟨5, some "fixed", 100, 0, 300, "active"⟩],
       [⟨1, 5, 100⟩], []⟩
    (s.allocations.filter (fun al => al.payout_id = 1)).Pairwise
      (fun a b => a.advance_id ≠ b.advance_id) ∧
    (∀ r ∈ s.repayments, r.payout_id ≠ some 1) ∧
    (∃ s2, update_payout s 1 (some "done") "paid" = Except.ok s2 ∧
      s2.repayments = s.repayments ++
        (s.allocations.filter (fun al => al.payout_id = 1)).map
          (fun al => ⟨al.advance_id, some 1, al.planned_amount, "auto"⟩) ∧
      s2.allocations = s.allocations.filter
        (fun al => ¬ al.payout_id = 1)) ∧
    update_payout s 1 (some "done") "paid" =
      Except.ok ⟨[⟨1, "paid", some "done"⟩],
        [⟨5, some "fixed", 100, 0, 200, "active"⟩], [],
        [⟨5, some 1, 100, "auto"⟩]⟩ := by
  intro s
  have h2 : ∀ al ∈ s.allocations.filter (fun al => al.payout_id = 1),
      0 < al.planned_amount ∧
      ∃ adv, s.advances.find? (fun a => a.id = al.advance_id) = some adv ∧
        al.planned_amount ≤ adv.amount_remaining := by
    intro al hal
    have hale : al = ⟨1, 5, 100⟩ := by
      rw [show s.allocations.filter (fun al => al.payout_id = 1)
        = [⟨1, 5, 100⟩] from by decide] at hal
      simpa using hal
    subst hale
    exact ⟨by decide, ⟨5, some "fixed", 100, 0, 300, "active"⟩,
      by decide, by decide⟩
  obtain ⟨s2, hupd, hrep, hallocs, _, _⟩ :=
    mark_payout_paid_realizes s 1 (some "done") (by decide) h2 (by decide)
  exact ⟨by decide, by decide, ⟨s2, hupd, hrep, hallocs⟩, by decide⟩
